import Mathlib

/-
Verification of the MusicCo "SlidePlay" rhythm-judge core.

Shallow embedding of:
  - Architecture/Code/MusicCo/music_parser.py   (parse_music_data)
  - Architecture/Code/MusicCo/music_creation.py (MusicCreator.save_composition)
  - Architecture/Code/MusicCo/visualizer.py     (prepare_song_data, get_visible_notes,
                                                 update_missed_notes, find_active_notes)
  - Architecture/Code/MusicCo/slide.py          (SlidePlayGame.process_key_event,
                                                 SlidePlayGame.get_beat_accuracy)

Modelling conventions:
  - Python floats are modelled as rationals (exact real arithmetic on the decimal
    literals the track format uses).
  - Python strings are Lean strings (a Lean `String` is a structure holding a
    `List Char`); the string helpers below (`splitOnChar`, `splitWS`, `joinWith`)
    model `str.split('-')`, `str.split()` and `' '.join` exactly.
  - Python dicts used as key-value stores are association lists; a note dict held
    by reference inside `key_to_note_map` is represented by the note's index into
    the song list.
  - `print`/audio calls are side effects outside the judge's state and are dropped
    (they are out of scope per the spec); the warning text that `parse_music_data`
    prints is returned alongside the parse so it can be reasoned about.
  - A Python `ValueError` raised by `int(...)`/`float(...)` aborts
    `parse_music_data`; this is modelled with `Except`.
-/

namespace MusicCo

/-! ## Generic helpers: association lists (Python dict) and string splitting -/

/-- `d.get(k)` on a dict modelled as an association list. -/
def assocGet {κ α : Type} [BEq κ] (l : List (κ × α)) (k : κ) : Option α :=
  (l.find? (fun p => p.1 == k)).map Prod.snd

/-- `d[k] = v` on a dict modelled as an association list (insert-or-overwrite). -/
def assocSet {κ α : Type} [BEq κ] (l : List (κ × α)) (k : κ) (v : α) : List (κ × α) :=
  (k, v) :: l.filter (fun p => !(p.1 == k))

/-- `del d[k]` on a dict modelled as an association list. -/
def assocErase {κ α : Type} [BEq κ] (l : List (κ × α)) (k : κ) : List (κ × α) :=
  l.filter (fun p => !(p.1 == k))

/-- Helper for `splitOnChar`: accumulates the current field in reverse. -/
def splitOnCharAux (c : Char) : List Char → List Char → List (List Char)
  | [], acc => [acc.reverse]
  | x :: xs, acc =>
    if x == c then acc.reverse :: splitOnCharAux c xs []
    else splitOnCharAux c xs (x :: acc)

/-- Python `s.split('-')` (single separator character, empty fields kept). -/
def splitOnChar (c : Char) (s : String) : List String :=
  (splitOnCharAux c s.toList []).map String.mk

/-- Helper for `splitWS`: accumulates the current token in reverse. -/
def splitWSAux : List Char → List Char → List (List Char)
  | [], acc => if acc.isEmpty then [] else [acc.reverse]
  | x :: xs, acc =>
    if x.isWhitespace then
      if acc.isEmpty then splitWSAux xs [] else acc.reverse :: splitWSAux xs []
    else splitWSAux xs (x :: acc)

/-- Python `s.split()` with no argument: split on whitespace runs, no empty tokens. -/
def splitWS (s : String) : List String :=
  (splitWSAux s.toList []).map String.mk

/-- Python `sep.join(tokens)`. -/
def joinWith (sep : String) : List String → String
  | [] => ""
  | [x] => x
  | x :: y :: xs => x ++ sep ++ joinWith sep (y :: xs)

/-! ## Numeric literals: Python `int(...)`, `float(...)`, `str(...)`, `int()` cast -/

/-- Decimal value of a digit-character string, most significant digit first
(the value Python's `int` assigns to a plain digit string). -/
def digitsVal (l : List Char) : ℕ :=
  l.foldl (fun a c => 10 * a + (c.toNat - 48)) 0

/-- Python `int(s)` on a field string: succeeds exactly on an optional sign
followed by a non-empty run of ASCII digits (the only integer literals the track
format can contain; underscores/whitespace forms are not used by this repository).
Raises `ValueError` (here: `none`) otherwise, e.g. on `int("")`. -/
def pyIntOpt (s : String) : Option ℤ :=
  match s.toList with
  | [] => none
  | c :: rest =>
    if c == '+' then
      if !rest.isEmpty && rest.all Char.isDigit then some (digitsVal rest : ℤ) else none
    else if c == '-' then
      if !rest.isEmpty && rest.all Char.isDigit then some (-(digitsVal rest : ℤ))
      else none
    else if (c :: rest).all Char.isDigit then some (digitsVal (c :: rest) : ℤ)
    else none

/-- Unsigned core of Python `float(s)`: `digits`, `digits.digits`, `digits.` or
`.digits` (exponent/`inf`/`nan` forms are never produced by this repository's
track format and are not modelled). -/
def pyFloatCore (l : List Char) : Option ℚ :=
  match splitOnCharAux '.' l [] with
  | [a] => if !a.isEmpty && a.all Char.isDigit then some (digitsVal a : ℚ) else none
  | [a, b] =>
    if !(a.isEmpty && b.isEmpty) && a.all Char.isDigit && b.all Char.isDigit then
      some ((digitsVal a : ℚ) + (digitsVal b : ℚ) / (10 : ℚ) ^ b.length)
    else none
  | _ => none

/-- Python `float(s)` on a field string (decimal literals, optionally signed). -/
def pyFloatOpt (s : String) : Option ℚ :=
  match s.toList with
  | [] => none
  | c :: rest =>
    if c == '+' then pyFloatCore rest
    else if c == '-' then (pyFloatCore rest).map Neg.neg
    else pyFloatCore (c :: rest)

/-- Python `int(x)` applied to a float: truncation toward zero. -/
def pyTrunc (q : ℚ) : ℤ :=
  Int.tdiv q.num (q.den : ℤ)

/-- The character for a decimal digit value. -/
def digitChar (d : ℕ) : Char :=
  Char.ofNat (48 + d)

/-- Little-endian digit characters of `n`, with `fuel` bounding the recursion
(`fuel = n` always suffices). -/
def natDigitsAux : ℕ → ℕ → List Char
  | 0, _ => []
  | _ + 1, 0 => []
  | fuel + 1, n + 1 => digitChar ((n + 1) % 10) :: natDigitsAux fuel ((n + 1) / 10)

/-- Python `str(n)` for a non-negative integer. -/
def natToString (n : ℕ) : String :=
  if n = 0 then "0" else String.mk (natDigitsAux n n).reverse

/-- Python `str(i)` for an integer. -/
def intToString (i : ℤ) : String :=
  if i < 0 then "-" ++ natToString i.natAbs else natToString i.toNat

/-- Smallest exponent `k ≤ d` with `d ∣ 10 ^ k`, when one exists.  For the
denominator of a decimal-valued rational this is the number of decimal places of
its shortest decimal representation, which is what Python's `str(float)`
(shortest round-tripping repr) prints. -/
def decExp (d : ℕ) : Option ℕ :=
  (List.range (d + 1)).find? (fun k => decide (d ∣ 10 ^ k))

/-- Python `str(x)` for a non-negative float `x`, on the rational model: the
shortest decimal form, always with at least one digit after the point
(`str(1.0) = "1.0"`, `str(0.5) = "0.5"`).  Rationals that are not decimal
fractions never arise as float values; they get a dummy rendering. -/
def fmtDec (q : ℚ) : String :=
  match decExp q.den with
  | some k =>
    let m := (Int.tdiv (q.num * (10 : ℤ) ^ k) (q.den : ℤ)).toNat
    if k = 0 then natToString m ++ ".0"
    else
      let frac := natToString (m % 10 ^ k)
      natToString (m / 10 ^ k) ++ "." ++
        String.mk (List.replicate (k - frac.length) '0') ++ frac
  | none => "0"

/-! ## Constants (constants.py; the file assigns twice, the later assignment wins) -/

/-- `WIDTH` (constants.py, second assignment). -/
def WIDTH : ℤ := 1600

/-- `NOTE_SPEED` in pixels per second (constants.py). -/
def NOTE_SPEED : ℚ := 150

/-- `THRESHOLD_X` (constants.py). -/
def THRESHOLD_X : ℤ := 200

/-- Modelled from the spec: the `INSTRUMENTS` dict is imported from a `constants`
module variant that is missing from the source tree (the included constants.py
lacks it).  Per the spec, the instrument set is a small closed set and a missing
instrument id defaults to instrument 0 (`"PIANO"`); `"ELECTRO_GUITAR"` is the
other member. -/
def INSTRUMENTS_PIANO : ℤ := 0

/-- Modelled from the spec: the second member of the closed instrument set, with
an id distinct from `INSTRUMENTS_PIANO`. -/
def INSTRUMENTS_ELECTRO_GUITAR : ℤ := 1

/-- `KEY_MAPPINGS` (constants.py): pygame keycodes `K_1`..`K_7` (ASCII 49..55)
to pitch-class names. -/
def KEY_MAPPINGS : List (ℕ × String) :=
  [(49, "Do"), (50, "Re"), (51, "Mi"), (52, "Fa"), (53, "Sol"), (54, "La"), (55, "Si")]

/-- pygame keycode `K_w` (ASCII 119), the instrument-toggle key. -/
def K_w : ℕ := 119

/-! ## Parsed note records (music_parser.py output / MusicCreator composition) -/

/-- A note dict as produced by `parse_music_data` and consumed by
`save_composition`: keys `Note`, `Octave`, `Start Time`, `Duration`, `Volume`,
`Instrument`. -/
structure RawNote where
  pitch : String
  octave : ℤ
  start : ℚ
  duration : ℚ
  volume : ℤ
  instrument : ℤ
deriving DecidableEq, Repr

/-- Field conversion step of `parse_music_data` for one entry: pitch = non-digit
characters of the first field, octave = its digit characters, then
`int`/`float` conversions; any conversion failure is Python `ValueError`. -/
def parseFields (note_octave start_time duration volume : String) (instrument : ℤ) :
    Except String RawNote :=
  let noteChars := note_octave.toList.filter (fun c => !c.isDigit)
  let octChars := note_octave.toList.filter Char.isDigit
  match pyIntOpt (String.mk octChars), pyFloatOpt start_time,
        pyFloatOpt duration, pyIntOpt volume with
  | some o, some st, some du, some vo =>
    .ok { pitch := String.mk noteChars, octave := o, start := st,
          duration := du, volume := vo, instrument := instrument }
  | _, _, _, _ => .error "ValueError"

/-- The per-entry loop of `parse_music_data`.  Returns the parsed notes together
with the list of printed `Warning: Skipping malformed entry:` messages; a
`ValueError` from a numeric conversion aborts the whole parse. -/
def parse_entries : List String → Except String (List RawNote × List String)
  | [] => .ok ([], [])
  | entry :: rest =>
    match splitOnChar '-' entry with
    | [no, st, du, vo] =>
      match parseFields no st du vo INSTRUMENTS_PIANO with
      | .error e => .error e
      | .ok n =>
        match parse_entries rest with
        | .error e => .error e
        | .ok (ns, ws) => .ok (n :: ns, ws)
    | [no, st, du, vo, ins] =>
      match pyIntOpt ins with
      | none => .error "ValueError"
      | some i =>
        match parseFields no st du vo i with
        | .error e => .error e
        | .ok n =>
          match parse_entries rest with
          | .error e => .error e
          | .ok (ns, ws) => .ok (n :: ns, ws)
    | _ =>
      match parse_entries rest with
      | .error e => .error e
      | .ok (ns, ws) => .ok (ns, ("Warning: Skipping malformed entry: " ++ entry) :: ws)

/-- `parse_music_data` (music_parser.py): split the input on whitespace and
parse each entry. -/
def parse_music_data (input_data : String) : Except String (List RawNote × List String) :=
  parse_entries (splitWS input_data)

/-- Whether a token's hyphen-split field count is 4 or 5 (the counts
`parse_music_data` accepts instead of skipping the token). -/
def tokenFieldCountOk (tok : String) : Bool :=
  let c := (splitOnChar '-' tok).length
  c == 4 || c == 5

/-- The note a single well-formed token denotes (field count 4 or 5 and all
numeric conversions succeeding), and `none` otherwise.  Two tokens are
"equivalent modulo field formatting" when they denote the same note. -/
def tokenDenote (entry : String) : Option RawNote :=
  match splitOnChar '-' entry with
  | [no, st, du, vo] => (parseFields no st du vo INSTRUMENTS_PIANO).toOption
  | [no, st, du, vo, ins] =>
    match pyIntOpt ins with
    | none => none
    | some i => (parseFields no st du vo i).toOption
  | _ => none

/-- Token equivalence modulo field formatting: both tokens denote the same note. -/
def tokenEquiv (a b : String) : Prop :=
  tokenDenote a = tokenDenote b ∧ (tokenDenote a).isSome

instance (a b : String) : Decidable (tokenEquiv a b) := by
  unfold tokenEquiv; infer_instance

/-! ## Serialization (music_creation.py, MusicCreator.save_composition) -/

/-- The f-string of `save_composition` for one note:
pitch, octave, start, duration, volume, instrument, hyphen-separated. -/
def formatted_note (n : RawNote) : String :=
  n.pitch ++ intToString n.octave ++ "-" ++ fmtDec n.start ++ "-" ++
    fmtDec n.duration ++ "-" ++ intToString n.volume ++ "-" ++ intToString n.instrument

/-- Stable insertion of a note into a start-time-sorted list (a new note goes
after notes with an equal start time, as Python's stable `sorted` does). -/
def insertByStart (n : RawNote) : List RawNote → List RawNote
  | [] => [n]
  | m :: ms => if n.start < m.start then n :: m :: ms else m :: insertByStart n ms

/-- Python `sorted(composition, key=lambda x: x['Start Time'])`: stable,
ascending by start time. -/
def sortByStart (l : List RawNote) : List RawNote :=
  l.foldl (fun acc n => insertByStart n acc) []

/-- `save_composition` (music_creation.py): `none` models the early `return
False` on an empty composition (no string is written); otherwise the
space-joined serialization of the start-time-sorted notes. -/
def save_composition (composition : List RawNote) : Option String :=
  if composition.isEmpty then none
  else some (joinWith " " ((sortByStart composition).map formatted_note))

/-! ## Prepared notes and the visualizer helpers (visualizer.py) -/

/-- A note dict after `prepare_song_data`: the parsed fields plus the derived
appearance time, the three outcome flags and the beat-accuracy fields. -/
structure Note where
  pitch : String
  octave : ℤ
  start : ℚ
  duration : ℚ
  volume : ℤ
  instrument : ℤ
  appear_time : ℚ
  played : Bool
  missed : Bool
  wrong : Bool
  expected_duration : ℚ
  actual_duration : ℚ
  beat_accuracy : ℚ
deriving DecidableEq, Repr

/-- Placeholder note for total list indexing; never reached on the indices the
judge produces. -/
def dummyNote : Note :=
  { pitch := "", octave := 0, start := 0, duration := 0, volume := 0,
    instrument := 0, appear_time := 0, played := false, missed := false,
    wrong := false, expected_duration := 0, actual_duration := 0, beat_accuracy := 0 }

/-- `travel_time` (prepare_song_data): `(WIDTH - THRESHOLD_X) / NOTE_SPEED`. -/
def travel_time : ℚ :=
  ((WIDTH : ℚ) - (THRESHOLD_X : ℚ)) / NOTE_SPEED

/-- `prepare_song_data` (visualizer.py) on one parsed note: add `appear_time`,
clear the outcome flags, initialize the beat-accuracy fields.  (`Instrument` is
always present on parser/creator output, so the backward-compatibility default
is the identity here.) -/
def prepare_note (r : RawNote) : Note :=
  { pitch := r.pitch, octave := r.octave, start := r.start, duration := r.duration,
    volume := r.volume, instrument := r.instrument,
    appear_time := r.start - travel_time,
    played := false, missed := false, wrong := false,
    expected_duration := r.duration, actual_duration := 0, beat_accuracy := 0 }

/-- `prepare_song_data` (visualizer.py). -/
def prepare_song_data (song_data : List RawNote) : List Note :=
  song_data.map prepare_note

/-- The x position of a note at session time `t`:
`WIDTH - int((t - appear_time) * NOTE_SPEED)`. -/
def x_pos (n : Note) (t : ℚ) : ℤ :=
  WIDTH - pyTrunc ((t - n.appear_time) * NOTE_SPEED)

/-- `int(note['Duration'] * NOTE_SPEED)` (update_missed_notes). -/
def note_width (n : Note) : ℤ :=
  pyTrunc (n.duration * NOTE_SPEED)

/-- Whether a note carries any terminal classification flag. -/
def flagged (n : Note) : Bool :=
  n.played || n.missed || n.wrong

/-- `get_visible_notes` (visualizer.py). -/
def get_visible_notes (song_data : List Note) (current_time : ℚ) : List Note :=
  song_data.filter (fun n => decide (n.appear_time ≤ current_time))

/-- The miss test of `update_missed_notes`: no outcome flag yet and the note's
trailing edge is past the threshold by more than 40 pixels. -/
def missCondition (current_time : ℚ) (n : Note) : Bool :=
  !n.played && !n.missed && !n.wrong &&
    decide (x_pos n current_time + note_width n < THRESHOLD_X - 40)

/-- `update_missed_notes` (visualizer.py): mark every qualifying note `missed`
and bump the running missed counter once per newly missed note.  The Python
function mutates the notes in place and returns the counter; the updated list
is returned explicitly here. -/
def update_missed_notes : List Note → ℚ → ℕ → List Note × ℕ
  | [], _, c => ([], c)
  | n :: ns, t, c =>
    if missCondition t n then
      let r := update_missed_notes ns t (c + 1)
      ({ n with missed := true } :: r.1, r.2)
    else
      let r := update_missed_notes ns t c
      (n :: r.1, r.2)

/-- Recursion core of `find_active_notes`, carrying the index of the current
note so that the returned pairs identify notes positionally (the Python version
returns references into the song list). -/
def find_active_aux : List Note → ℚ → ℕ → List (ℕ × ℕ)
  | [], _, _ => []
  | n :: ns, t, i =>
    if n.played || n.missed || n.wrong then find_active_aux ns t (i + 1)
    else
      let d := (x_pos n t - THRESHOLD_X).natAbs
      if d < 40 then (i, d) :: find_active_aux ns t (i + 1)
      else find_active_aux ns t (i + 1)

/-- `find_active_notes` (visualizer.py): unconsumed notes within 40 pixels of
the threshold, as (index, distance) pairs in song order
(`threshold_distance` keeps its default of 40 at every call site). -/
def find_active_notes (song_data : List Note) (current_time : ℚ) : List (ℕ × ℕ) :=
  find_active_aux song_data current_time 0

/-! ## Game state and the judge (slide.py) -/

/-- The SlidePlayGame state mutated by `process_key_event` and the miss sweep.
Display-only fields (fonts, colors, `max_score`, `active_note_info`, octave
range for audio panning) are omitted; they never feed back into the judge. -/
structure GameState where
  song_data : List Note
  score : ℕ
  correct_hits : ℕ
  missed_notes : ℕ
  wrong_notes : ℕ
  last_key_pressed : Option String
  beat_accuracy_total : ℚ
  beat_accuracy_count : ℕ
  currently_playing : List (ℕ × ℚ × String)
  key_to_note_map : List (ℕ × ℕ)
  note_accuracy : List (String × ℕ × ℕ)
  current_instrument : ℤ
  override_instruments : Bool
deriving DecidableEq, Repr

/-- The judge's initial state for a parsed song (`SlidePlayGame.__init__`,
restricted to the judge-relevant fields). -/
def init_state (song_data : List RawNote) : GameState :=
  { song_data := prepare_song_data song_data,
    score := 0, correct_hits := 0, missed_notes := 0, wrong_notes := 0,
    last_key_pressed := none,
    beat_accuracy_total := 0, beat_accuracy_count := 0,
    currently_playing := [], key_to_note_map := [], note_accuracy := [],
    current_instrument := INSTRUMENTS_PIANO, override_instruments := false }

/-- A keyboard event as seen by `process_key_event`. -/
inductive Event where
  | keydown (key : ℕ)
  | keyup (key : ℕ)
deriving DecidableEq, Repr

/-- `toggle_instrument` (slide.py): swap piano/guitar, set the override flag
(the sample-note playback is a dropped side effect). -/
def toggle_instrument (s : GameState) : GameState :=
  { s with
    current_instrument :=
      if s.current_instrument == INSTRUMENTS_PIANO then INSTRUMENTS_ELECTRO_GUITAR
      else INSTRUMENTS_PIANO,
    override_instruments := true }

/-- The instrument-override filter inside `process_key_event`: if every active
note's instrument differs from the current one keep them all, otherwise keep the
matching ones.  (The Python loop re-evaluates the `all(...)` test on each
iteration; it is a pure test, so this filter is its exact effect.) -/
def filter_by_instrument (song : List Note) (cur : ℤ) (active : List (ℕ × ℕ)) :
    List (ℕ × ℕ) :=
  active.filter (fun p =>
    active.all (fun q => !((song.getD q.1 dummyNote).instrument == cur)) ||
      (song.getD p.1 dummyNote).instrument == cur)

/-- Python `min(active_notes, key=lambda x: x[1])`: first pair with minimal
distance, scanning left to right. -/
def minBySnd : (ℕ × ℕ) → List (ℕ × ℕ) → (ℕ × ℕ)
  | best, [] => best
  | best, p :: ps => minBySnd (if p.2 < best.2 then p else best) ps

/-- `d.get(note, {'correct': 0, 'wrong': 0})` then `+1` on the chosen tally of
`note_accuracy` (slide.py keeps per-pitch (correct, wrong) counts). -/
def bump_note_accuracy (m : List (String × ℕ × ℕ)) (p : String) (isCorrect : Bool) :
    List (String × ℕ × ℕ) :=
  let cur := (assocGet m p).getD (0, 0)
  assocSet m p (if isCorrect then (cur.1 + 1, cur.2) else (cur.1, cur.2 + 1))

/-- The instrument-filtered candidate list a press is judged against: the
filtered active notes when the override filter kept any, the full active list
otherwise (also when the override is off). -/
def press_candidates (song : List Note) (override : Bool) (cur : ℤ)
    (active : List (ℕ × ℕ)) : List (ℕ × ℕ) :=
  match (if override then filter_by_instrument song cur active else active) with
  | [] => active
  | b :: bs => b :: bs

/-- The (index, distance) pair `process_key_event` selects for a press whose
active list is `a :: rest`: Python's `min` by distance over the candidate list. -/
def select_from_active (song : List Note) (override : Bool) (cur : ℤ)
    (a : ℕ × ℕ) (rest : List (ℕ × ℕ)) : ℕ × ℕ :=
  match press_candidates song override cur (a :: rest) with
  | [] => minBySnd a rest
  | b :: bs => minBySnd b bs

/-- The KEYDOWN branch of `process_key_event` after the key was recorded in
`currently_playing`, for a mapped key with pitch `played_note`. -/
def judge_press (s : GameState) (key : ℕ) (played_note : String) (t : ℚ) : GameState :=
  let active := find_active_notes s.song_data t
  match active with
  | [] =>
    { s with
      wrong_notes := s.wrong_notes + 1,
      note_accuracy := bump_note_accuracy s.note_accuracy played_note false }
  | a :: rest =>
    let sel :=
      select_from_active s.song_data s.override_instruments s.current_instrument a rest
    let i := sel.1
    let closest := s.song_data.getD i dummyNote
    if closest.pitch == played_note then
      { s with
        song_data := s.song_data.set i
          { closest with
            played := true, expected_duration := closest.duration,
            actual_duration := 0, beat_accuracy := 0 },
        score := s.score + 1,
        correct_hits := s.correct_hits + 1,
        key_to_note_map := assocSet s.key_to_note_map key i,
        note_accuracy := bump_note_accuracy s.note_accuracy played_note true }
    else
      { s with
        song_data := s.song_data.set i { closest with wrong := true },
        wrong_notes := s.wrong_notes + 1,
        note_accuracy := bump_note_accuracy s.note_accuracy played_note false }

/-- The KEYUP branch of `process_key_event` for a mapped key. -/
def judge_release (s : GameState) (key : ℕ) (t : ℚ) : GameState :=
  match assocGet s.currently_playing key with
  | none => s
  | some press_data =>
    let press_duration := t - press_data.1
    let s1 :=
      match assocGet s.key_to_note_map key with
      | none => s
      | some i =>
        let note := s.song_data.getD i dummyNote
        let expected := note.expected_duration
        let accuracy :=
          if press_duration ≥ expected then (100 : ℚ)
          else press_duration / expected * 100
        { s with
          song_data := s.song_data.set i
            { note with actual_duration := press_duration, beat_accuracy := accuracy },
          beat_accuracy_total := s.beat_accuracy_total + accuracy,
          beat_accuracy_count := s.beat_accuracy_count + 1,
          key_to_note_map := assocErase s.key_to_note_map key }
    { s1 with currently_playing := assocErase s1.currently_playing key }

/-- `process_key_event` (slide.py): the W key toggles the instrument; a mapped
KEYDOWN records the press in `currently_playing` and judges it against the
active notes; a mapped KEYUP measures beat accuracy for a bound key; everything
else is ignored. -/
def process_key_event (s : GameState) (e : Event) (t : ℚ) : GameState :=
  match e with
  | .keydown k =>
    if k == K_w then toggle_instrument s
    else
      match assocGet KEY_MAPPINGS k with
      | none => s
      | some played_note =>
        let s' :=
          { s with
            last_key_pressed := some played_note,
            currently_playing := assocSet s.currently_playing k (t, played_note) }
        judge_press s' k played_note t
  | .keyup k =>
    match assocGet KEY_MAPPINGS k with
    | none => s
    | some _ => judge_release s k t

/-- `get_beat_accuracy` (slide.py). -/
def get_beat_accuracy (s : GameState) : ℚ :=
  if s.beat_accuracy_count > 0 then s.beat_accuracy_total / (s.beat_accuracy_count : ℚ)
  else 0

/-- The per-frame miss sweep of the game loop, lifted to the full state:
`update_missed_notes(get_visible_notes(song_data, t), t, missed_notes)` with
the in-place note mutations written back.  A note is marked when it is visible
and satisfies the miss test; the counter grows by the number of new misses. -/
def sweep_missed (s : GameState) (t : ℚ) : GameState :=
  { s with
    song_data := s.song_data.map (fun n =>
      if n.appear_time ≤ t ∧ missCondition t n then { n with missed := true } else n),
    missed_notes := s.missed_notes +
      s.song_data.countP (fun n =>
        decide (n.appear_time ≤ t) && missCondition t n) }

/-- The operations a live play session performs on the judge state: key events
and the per-frame miss sweep. -/
inductive GameOp where
  | ev (e : Event)
  | sweep
deriving DecidableEq, Repr

/-- Apply one session operation at session time `t`. -/
def applyOp (s : GameState) : GameOp → ℚ → GameState
  | .ev e, t => process_key_event s e t
  | .sweep, t => sweep_missed s t

/-- Run a session trace: a list of timestamped operations in order. -/
def runOps : GameState → List (GameOp × ℚ) → GameState
  | s, [] => s
  | s, (op, t) :: rest => runOps (applyOp s op t) rest

/-! ## Predicates used by the statements -/

/-- How many of the three outcome flags a note carries. -/
def flagCount (n : Note) : ℕ :=
  (if n.played then 1 else 0) + (if n.missed then 1 else 0) + (if n.wrong then 1 else 0)

/-- The per-note classification invariant: every note of the song carries at
most one of \x7bplayed, missed, wrong\x7d. -/
def Inv (s : GameState) : Prop :=
  ∀ n ∈ s.song_data, flagCount n ≤ 1

/-- Value of a little-endian digit-character list (proof-side mirror of
`digitsVal`, which is most-significant-first). -/
def valLSB : List Char → ℕ
  | [] => 0
  | c :: cs => (c.toNat - 48) + 10 * valLSB cs

/-- Well-formed `<PitchClass><Octave>` field: one or more letters followed by
one or more digits. -/
def wfField0 (s : String) : Bool :=
  let p := s.toList.takeWhile (fun c => !c.isDigit)
  let d := s.toList.dropWhile (fun c => !c.isDigit)
  !p.isEmpty && !d.isEmpty && p.all Char.isAlpha && d.all Char.isDigit

/-- Well-formed non-negative decimal field: `digits` or `digits.digits`. -/
def wfDec (s : String) : Bool :=
  match s.toList.dropWhile (fun c => !(c == '.')) with
  | [] =>
    !(s.toList.takeWhile (fun c => !(c == '.'))).isEmpty &&
      (s.toList.takeWhile (fun c => !(c == '.'))).all Char.isDigit
  | _ :: frac =>
    !(s.toList.takeWhile (fun c => !(c == '.'))).isEmpty && !frac.isEmpty &&
      (s.toList.takeWhile (fun c => !(c == '.'))).all Char.isDigit &&
      frac.all Char.isDigit

/-- Well-formed non-negative integer field: one or more digits. -/
def wfInt (s : String) : Bool :=
  !s.toList.isEmpty && s.toList.all Char.isDigit

/-- A well-formed five-field track token
`<PitchClass><Octave>-<StartTime>-<Duration>-<Volume>-<InstrumentId>`
with non-negative numeric fields. -/
def wellFormedToken5 (tok : String) : Bool :=
  match splitOnChar '-' tok with
  | [f0, f1, f2, f3, f4] => wfField0 f0 && wfDec f1 && wfDec f2 && wfInt f3 && wfInt f4
  | _ => false

/-- The note-record properties every note parsed from a well-formed token has;
they are exactly what makes `formatted_note` parse back to the same record. -/
def GoodNote (n : RawNote) : Prop :=
  n.pitch.toList ≠ [] ∧ (∀ c ∈ n.pitch.toList, c.isAlpha = true) ∧
  0 ≤ n.octave ∧ 0 ≤ n.volume ∧ 0 ≤ n.instrument ∧
  0 ≤ n.start ∧ (∃ e, (n.start.den : ℕ) ∣ 10 ^ e) ∧
  0 ≤ n.duration ∧ (∃ e, (n.duration.den : ℕ) ∣ 10 ^ e)

/-! ## Concrete data for witnesses and counterexamples -/

/-- A two-note example song: both notes have pitch `Do`; the first is a piano
note starting at 0, the second a guitar note starting at 0.2 s. -/
def exSong : List RawNote :=
  [{ pitch := "Do", octave := 4, start := 0, duration := 1, volume := 100, instrument := 0 },
   { pitch := "Do", octave := 4, start := 1/5, duration := 1, volume := 100, instrument := 1 }]

/-- The example session for the nearest-note counterexample: from the prepared
song, the player presses W (instrument toggle, switching to guitar and turning
the override on) and then presses key 1 (`Do`) at time 0. -/
def exCexState : GameState :=
  runOps (init_state exSong) [(.ev (.keydown 119), 0)]

/-! # Theorems -/

/-! ## Generic helper lemmas -/

theorem isDigit_false_of_isAlpha {c : Char} (h : c.isAlpha = true) : c.isDigit = false := by
  simp only [Char.isAlpha, Char.isUpper, Char.isLower, Char.isDigit, Bool.or_eq_true,
    Bool.and_eq_true, decide_eq_true_eq, ge_iff_le, Bool.and_eq_false_iff,
    decide_eq_false_iff_not, not_le, UInt32.le_def, UInt32.lt_def, BitVec.le_def,
    BitVec.lt_def] at *
  norm_num at *
  omega

theorem isWhitespace_false_of_isAlpha {c : Char} (h : c.isAlpha = true) :
    c.isWhitespace = false := by
  simp only [Char.isAlpha, Char.isUpper, Char.isLower, Bool.or_eq_true, Bool.and_eq_true,
    decide_eq_true_eq, ge_iff_le, UInt32.le_def, BitVec.le_def] at h
  simp only [Char.isWhitespace, Bool.or_eq_false_iff, decide_eq_false_iff_not]
  refine ⟨⟨⟨?_, ?_⟩, ?_⟩, ?_⟩ <;> (rintro rfl; revert h; decide)

theorem isWhitespace_false_of_isDigit {c : Char} (h : c.isDigit = true) :
    c.isWhitespace = false := by
  simp only [Char.isDigit, Bool.and_eq_true, decide_eq_true_eq, ge_iff_le,
    UInt32.le_def, BitVec.le_def] at h
  simp only [Char.isWhitespace, Bool.or_eq_false_iff, decide_eq_false_iff_not]
  refine ⟨⟨⟨?_, ?_⟩, ?_⟩, ?_⟩ <;> (rintro rfl; revert h; decide)

theorem beq_false_of_isDigit_of_ne {c d : Char} (h : c.isDigit = true)
    (hd : d.isDigit = false) : (c == d) = false := by
  cases hb : c == d
  · rfl
  · exact absurd (eq_of_beq hb ▸ h) (by simp [hd])

theorem beq_false_of_isAlpha_of_ne {c d : Char} (h : c.isAlpha = true)
    (hd : d.isAlpha = false) : (c == d) = false := by
  cases hb : c == d
  · rfl
  · exact absurd (eq_of_beq hb ▸ h) (by simp [hd])

theorem mapped_key_ne_toggle (k : ℕ) (p : String)
    (hk : assocGet KEY_MAPPINGS k = some p) : (k == K_w) = false := by
  cases hb : k == K_w
  · rfl
  · exfalso
    have hkk : k = K_w := by exact eq_of_beq hb
    subst hkk
    rw [show assocGet KEY_MAPPINGS K_w = (none : Option String) from rfl] at hk
    exact Option.noConfusion hk

theorem assocGet_assocSet_self {κ α : Type} [BEq κ] [LawfulBEq κ]
    (l : List (κ × α)) (k : κ) (v : α) : assocGet (assocSet l k v) k = some v := by
  simp [assocGet, assocSet, List.find?_cons]

/-! ## C9: mean beat accuracy query -/

/-- C9: `get_beat_accuracy` returns the running sum divided by the running
count when the count is positive and exactly 0 when the count is 0; it is a
pure function of the state (no state change). -/
theorem get_beat_accuracy_spec (s : GameState) :
    (0 < s.beat_accuracy_count →
      get_beat_accuracy s = s.beat_accuracy_total / (s.beat_accuracy_count : ℚ)) ∧
    (s.beat_accuracy_count = 0 → get_beat_accuracy s = 0) := by
  constructor <;> intro h <;> simp [get_beat_accuracy, h]

/-- Witness for C9 at a concrete state with sum 150 over 2 notes, and at the
fresh state with count 0. -/
theorem get_beat_accuracy_spec_witness :
    get_beat_accuracy
      { init_state [] with beat_accuracy_total := 150, beat_accuracy_count := 2 } = 75 ∧
    get_beat_accuracy (init_state []) = 0 := by
  constructor
  · have h := (get_beat_accuracy_spec
      { init_state [] with beat_accuracy_total := 150, beat_accuracy_count := 2 }).1
      (by decide)
    rw [h]; norm_num
  · exact (get_beat_accuracy_spec (init_state [])).2 rfl

/-! ## C6: the miss sweep is idempotent -/

/-- C6: running `update_missed_notes` a second time at the same timestamp, on
the note list and counter the first run produced, changes nothing: no note
flag changes and the missed counter keeps the value of the first run. -/
theorem update_missed_notes_idempotent (l : List Note) (t : ℚ) (c : ℕ) :
    update_missed_notes (update_missed_notes l t c).1 t (update_missed_notes l t c).2 =
      update_missed_notes l t c := by
  induction l generalizing c with
  | nil => rfl
  | cons n ns ih =>
    cases h : missCondition t n with
    | true =>
      have h2 : missCondition t { n with missed := true } = false := by
        simp [missCondition]
      simp only [update_missed_notes, h, if_true, h2, Bool.false_eq_true, if_false]
      exact congrArg (fun r => ({ n with missed := true } :: r.1, r.2)) (ih (c + 1))
    | false =>
      simp only [update_missed_notes, h, Bool.false_eq_true, if_false]
      exact congrArg (fun r => (n :: r.1, r.2)) (ih c)

/-! ## C4: press with no active note -/

/-- C4: a press of a mapped key at a time with an empty active set increments
the wrong-press counter by exactly 1, changes no note (the whole song list,
hence every note field, is untouched), and leaves the score, correct-hit and
missed counters unchanged. -/
theorem press_with_no_active_notes (s : GameState) (k : ℕ) (p : String) (t : ℚ)
    (hk : assocGet KEY_MAPPINGS k = some p)
    (hempty : find_active_notes s.song_data t = []) :
    (process_key_event s (.keydown k) t).wrong_notes = s.wrong_notes + 1 ∧
    (process_key_event s (.keydown k) t).song_data = s.song_data ∧
    (process_key_event s (.keydown k) t).score = s.score ∧
    (process_key_event s (.keydown k) t).correct_hits = s.correct_hits ∧
    (process_key_event s (.keydown k) t).missed_notes = s.missed_notes := by
  have hw := mapped_key_ne_toggle k p hk
  simp [process_key_event, hw, hk, judge_press, hempty]

/-- Witness for C4: pressing key 1 at time 100 of the example song (both notes
are long past the threshold window). -/
theorem press_with_no_active_notes_witness :
    (process_key_event (init_state exSong) (.keydown 49) 100).wrong_notes =
      (init_state exSong).wrong_notes + 1 ∧
    (process_key_event (init_state exSong) (.keydown 49) 100).song_data =
      (init_state exSong).song_data ∧
    (process_key_event (init_state exSong) (.keydown 49) 100).score =
      (init_state exSong).score ∧
    (process_key_event (init_state exSong) (.keydown 49) 100).correct_hits =
      (init_state exSong).correct_hits ∧
    (process_key_event (init_state exSong) (.keydown 49) 100).missed_notes =
      (init_state exSong).missed_notes :=
  press_with_no_active_notes (init_state exSong) 49 "Do" 100 rfl (by with_unfolding_all rfl)

/-! ## C8: release of a key with no open press session -/

/-- C8: a release of a key with no binding in `key_to_note_map` (no open
PressSession) changes no note, no counter, and neither the beat-accuracy
running sum nor the running count.  (The stale `currently_playing` press
record of a wrong or unmatched press is discarded; that record is not
state the claim constrains.) -/
theorem release_without_binding (s : GameState) (k : ℕ) (t : ℚ)
    (hnb : assocGet s.key_to_note_map k = none) :
    (process_key_event s (.keyup k) t).song_data = s.song_data ∧
    (process_key_event s (.keyup k) t).score = s.score ∧
    (process_key_event s (.keyup k) t).correct_hits = s.correct_hits ∧
    (process_key_event s (.keyup k) t).missed_notes = s.missed_notes ∧
    (process_key_event s (.keyup k) t).wrong_notes = s.wrong_notes ∧
    (process_key_event s (.keyup k) t).beat_accuracy_total = s.beat_accuracy_total ∧
    (process_key_event s (.keyup k) t).beat_accuracy_count = s.beat_accuracy_count := by
  cases hm : assocGet KEY_MAPPINGS k with
  | none => simp [process_key_event, hm]
  | some p =>
    cases hcp : assocGet s.currently_playing k with
    | none => simp [process_key_event, hm, judge_release, hcp]
    | some pd => simp [process_key_event, hm, judge_release, hcp, hnb]

/-- Witness for C8: releasing key 2 right after a wrong press of key 2 (which
recorded a press but bound no note). -/
theorem release_without_binding_witness :
    (process_key_event (process_key_event (init_state exSong) (.keydown 50) 0)
        (.keyup 50) 1).song_data =
      (process_key_event (init_state exSong) (.keydown 50) 0).song_data ∧
    (process_key_event (process_key_event (init_state exSong) (.keydown 50) 0)
        (.keyup 50) 1).score =
      (process_key_event (init_state exSong) (.keydown 50) 0).score ∧
    (process_key_event (process_key_event (init_state exSong) (.keydown 50) 0)
        (.keyup 50) 1).correct_hits =
      (process_key_event (init_state exSong) (.keydown 50) 0).correct_hits ∧
    (process_key_event (process_key_event (init_state exSong) (.keydown 50) 0)
        (.keyup 50) 1).missed_notes =
      (process_key_event (init_state exSong) (.keydown 50) 0).missed_notes ∧
    (process_key_event (process_key_event (init_state exSong) (.keydown 50) 0)
        (.keyup 50) 1).wrong_notes =
      (process_key_event (init_state exSong) (.keydown 50) 0).wrong_notes ∧
    (process_key_event (process_key_event (init_state exSong) (.keydown 50) 0)
        (.keyup 50) 1).beat_accuracy_total =
      (process_key_event (init_state exSong) (.keydown 50) 0).beat_accuracy_total ∧
    (process_key_event (process_key_event (init_state exSong) (.keydown 50) 0)
        (.keyup 50) 1).beat_accuracy_count =
      (process_key_event (init_state exSong) (.keydown 50) 0).beat_accuracy_count :=
  release_without_binding (process_key_event (init_state exSong) (.keydown 50) 0)
    50 1 (by with_unfolding_all rfl)

/-! ## Helper lemmas about selection and active notes -/

theorem getD_of_get? {α : Type} {l : List α} {i : ℕ} {x d : α}
    (h : l.get? i = some x) : l.getD i d = x := by
  rw [List.getD_eq_getElem?_getD, ← List.get?_eq_getElem?, h]
  rfl

theorem minBySnd_mem (b : ℕ × ℕ) (l : List (ℕ × ℕ)) : minBySnd b l ∈ b :: l := by
  induction l generalizing b with
  | nil => simp [minBySnd]
  | cons p ps ih =>
    simp only [minBySnd]
    rcases List.mem_cons.mp (ih (if p.2 < b.2 then p else b)) with h | h
    · rw [h]
      split
      · exact List.mem_cons_of_mem b (List.mem_cons_self p ps)
      · exact List.mem_cons_self b (p :: ps)
    · exact List.mem_cons_of_mem b (List.mem_cons_of_mem p h)

theorem minBySnd_le (b : ℕ × ℕ) (l : List (ℕ × ℕ)) :
    ∀ q ∈ b :: l, (minBySnd b l).2 ≤ q.2 := by
  induction l generalizing b with
  | nil =>
    intro q hq
    rcases List.mem_cons.mp hq with h | h
    · subst h; exact le_refl _
    · cases h
  | cons p ps ih =>
    intro q hq
    simp only [minBySnd]
    have hxb : (if p.2 < b.2 then p else b).2 ≤ b.2 := by
      split
      · omega
      · exact le_refl _
    have hxp : (if p.2 < b.2 then p else b).2 ≤ p.2 := by
      split
      · exact le_refl _
      · omega
    have hmin := ih (if p.2 < b.2 then p else b)
    have hself := hmin _ (List.mem_cons_self _ ps)
    rcases List.mem_cons.mp hq with h | h
    · subst h; exact le_trans hself hxb
    · rcases List.mem_cons.mp h with h2 | h2
      · subst h2; exact le_trans hself hxp
      · exact hmin q (List.mem_cons.mpr (Or.inr h2))

theorem filter_by_instrument_subset {song : List Note} {cur : ℤ}
    {active : List (ℕ × ℕ)} {q : ℕ × ℕ}
    (h : q ∈ filter_by_instrument song cur active) : q ∈ active :=
  List.mem_of_mem_filter h

theorem press_candidates_subset {song : List Note} {ov : Bool} {cur : ℤ}
    {active : List (ℕ × ℕ)} {q : ℕ × ℕ}
    (h : q ∈ press_candidates song ov cur active) : q ∈ active := by
  unfold press_candidates at h
  cases hif : (if ov then filter_by_instrument song cur active else active) with
  | nil => rw [hif] at h; exact h
  | cons b bs =>
    rw [hif] at h
    simp only at h
    rw [← hif] at h
    cases ov with
    | false => simpa using h
    | true =>
      simp only [if_true] at h
      exact filter_by_instrument_subset h

theorem press_candidates_of_override_false (song : List Note) (cur : ℤ)
    (active : List (ℕ × ℕ)) : press_candidates song false cur active = active := by
  cases active <;> rfl

theorem press_candidates_ne_nil (song : List Note) (ov : Bool) (cur : ℤ)
    (a : ℕ × ℕ) (rest : List (ℕ × ℕ)) :
    press_candidates song ov cur (a :: rest) ≠ [] := by
  unfold press_candidates
  cases hif : (if ov then filter_by_instrument song cur (a :: rest) else a :: rest) with
  | nil => simp
  | cons b bs => simp

theorem select_from_active_spec (song : List Note) (ov : Bool) (cur : ℤ)
    (a : ℕ × ℕ) (rest : List (ℕ × ℕ)) :
    select_from_active song ov cur a rest ∈ press_candidates song ov cur (a :: rest) ∧
    ∀ q ∈ press_candidates song ov cur (a :: rest),
      (select_from_active song ov cur a rest).2 ≤ q.2 := by
  unfold select_from_active
  cases hc : press_candidates song ov cur (a :: rest) with
  | nil => exact absurd hc (press_candidates_ne_nil song ov cur a rest)
  | cons b bs =>
    simp only [hc]
    constructor
    · exact minBySnd_mem b bs
    · exact minBySnd_le b bs

theorem find_active_aux_mem {l : List Note} {t : ℚ} {i j d : ℕ}
    (h : (j, d) ∈ find_active_aux l t i) :
    i ≤ j ∧ ∃ n, l.get? (j - i) = some n ∧ flagged n = false := by
  induction l generalizing i with
  | nil => cases h
  | cons n ns ih =>
    simp only [find_active_aux] at h
    have hrest : (j, d) ∈ find_active_aux ns t (i + 1) →
        i ≤ j ∧ ∃ m, (n :: ns).get? (j - i) = some m ∧ flagged m = false := by
      intro h2
      obtain ⟨hij, m, hm, hfm⟩ := ih h2
      refine ⟨by omega, m, ?_, hfm⟩
      rw [show j - i = (j - (i + 1)) + 1 from by omega]
      simpa using hm
    by_cases hf : (n.played || n.missed || n.wrong) = true
    · rw [if_pos hf] at h
      exact hrest h
    · rw [if_neg hf] at h
      have hfl : flagged n = false := Bool.eq_false_iff.mpr hf
      split at h
      · rcases List.mem_cons.mp h with h2 | h2
        · rw [Prod.mk.injEq] at h2
          obtain ⟨hj, -⟩ := h2
          subst hj
          exact ⟨le_refl _, n, by simp [Nat.sub_self], hfl⟩
        · exact hrest h2
      · exact hrest h

theorem find_active_notes_mem {song : List Note} {t : ℚ} {j d : ℕ}
    (h : (j, d) ∈ find_active_notes song t) :
    ∃ n, song.get? j = some n ∧ flagged n = false := by
  obtain ⟨-, m, hm, hfm⟩ := find_active_aux_mem (l := song) (t := t) (i := 0) h
  exact ⟨m, by simpa using hm, hfm⟩

/-! ## C10: every mapped press records (or overwrites) the press record -/

/-- C10: every press of a mapped key stores `(current time, pitch)` as that
key's press record in `currently_playing`, overwriting any record left by an
earlier press of the same key; the binding in `key_to_note_map` used for beat
accuracy is added only on a correct press (and then points at the selected
note), never on a wrong or unmatched press. -/
theorem press_overwrites_press_record (s : GameState) (k : ℕ) (p : String) (t : ℚ)
    (hk : assocGet KEY_MAPPINGS k = some p) :
    assocGet (process_key_event s (.keydown k) t).currently_playing k = some (t, p) ∧
    (find_active_notes s.song_data t = [] →
      (process_key_event s (.keydown k) t).key_to_note_map = s.key_to_note_map) ∧
    (∀ a rest, find_active_notes s.song_data t = a :: rest →
      (((s.song_data.getD (select_from_active s.song_data s.override_instruments
            s.current_instrument a rest).1 dummyNote).pitch == p) = true →
        assocGet (process_key_event s (.keydown k) t).key_to_note_map k =
          some (select_from_active s.song_data s.override_instruments
            s.current_instrument a rest).1) ∧
      (((s.song_data.getD (select_from_active s.song_data s.override_instruments
            s.current_instrument a rest).1 dummyNote).pitch == p) = false →
        (process_key_event s (.keydown k) t).key_to_note_map = s.key_to_note_map)) := by
  have hw := mapped_key_ne_toggle k p hk
  refine ⟨?_, ?_, ?_⟩
  · cases hact : find_active_notes s.song_data t with
    | nil =>
      simp only [process_key_event, hw, Bool.false_eq_true, if_false, hk, judge_press, hact]
      exact assocGet_assocSet_self _ _ _
    | cons a rest =>
      simp only [process_key_event, hw, Bool.false_eq_true, if_false, hk, judge_press, hact]
      split
      · exact assocGet_assocSet_self _ _ _
      · exact assocGet_assocSet_self _ _ _
  · intro hact
    simp [process_key_event, hw, hk, judge_press, hact]
  · intro a rest hact
    constructor
    · intro hp
      simp only [process_key_event, hw, Bool.false_eq_true, if_false, hk, judge_press,
        hact, hp, if_true]
      exact assocGet_assocSet_self _ _ _
    · intro hp
      have hp' : ¬ ((s.song_data.getD (select_from_active s.song_data
          s.override_instruments s.current_instrument a rest).1 dummyNote).pitch == p)
            = true := by simp only [List.getD_eq_getElem?_getD] at hp; simp [hp]
      simp only [process_key_event, hw, Bool.false_eq_true, if_false, hk, judge_press,
        hact, if_neg hp']

/-- Witness for C10: key 1 is pressed (correctly) at time 0, then pressed again
at time 3 without an intervening release; the second press overwrites the press
record's start time (0 becomes 3) and, being unmatched (no active note at time
3), leaves the note binding of the first press in place. -/
theorem press_overwrites_press_record_witness :
    assocGet (process_key_event (init_state exSong) (.keydown 49) 0).currently_playing
      49 = some (0, "Do") ∧
    assocGet (process_key_event (process_key_event (init_state exSong) (.keydown 49) 0)
      (.keydown 49) 3).currently_playing 49 = some (3, "Do") ∧
    (process_key_event (process_key_event (init_state exSong) (.keydown 49) 0)
      (.keydown 49) 3).key_to_note_map =
      (process_key_event (init_state exSong) (.keydown 49) 0).key_to_note_map := by
  refine ⟨?_, ?_, ?_⟩
  · exact (press_overwrites_press_record (init_state exSong) 49 "Do" 0 rfl).1
  · exact (press_overwrites_press_record
      (process_key_event (init_state exSong) (.keydown 49) 0) 49 "Do" 3 rfl).1
  · exact (press_overwrites_press_record
      (process_key_event (init_state exSong) (.keydown 49) 0) 49 "Do" 3 rfl).2.1
      (by with_unfolding_all rfl)

/-! ## C2: a press with active notes judges the nearest candidate note -/

/-- C2 (amended): for a press of a mapped key with a non-empty active set, the
judge selects, among the instrument-filtered candidate notes (the full active
set whenever the instrument override is off), a note of the active set with
minimal distance to the threshold; if that note's pitch-class equals the
pressed key's pitch-class it is marked `played` and score and correct-hit
counter increment by 1 (wrong counter unchanged), otherwise that same note is
marked `wrong` and the wrong counter increments by 1 (score and correct-hit
counter unchanged). -/
theorem judge_press_selects_nearest (s : GameState) (k : ℕ) (p : String) (t : ℚ)
    (a : ℕ × ℕ) (rest : List (ℕ × ℕ)) (n : Note)
    (hk : assocGet KEY_MAPPINGS k = some p)
    (hact : find_active_notes s.song_data t = a :: rest)
    (hn : s.song_data.get? (select_from_active s.song_data s.override_instruments
        s.current_instrument a rest).1 = some n) :
    select_from_active s.song_data s.override_instruments s.current_instrument a rest ∈
      find_active_notes s.song_data t ∧
    (∀ q ∈ press_candidates s.song_data s.override_instruments s.current_instrument
        (find_active_notes s.song_data t),
      (select_from_active s.song_data s.override_instruments s.current_instrument
        a rest).2 ≤ q.2) ∧
    (s.override_instruments = false →
      press_candidates s.song_data s.override_instruments s.current_instrument
        (find_active_notes s.song_data t) = find_active_notes s.song_data t) ∧
    ((n.pitch == p) = true →
      ∃ n', (process_key_event s (.keydown k) t).song_data.get?
          (select_from_active s.song_data s.override_instruments s.current_instrument
            a rest).1 = some n' ∧
        n'.played = true ∧ n'.missed = false ∧ n'.wrong = false ∧
        (process_key_event s (.keydown k) t).score = s.score + 1 ∧
        (process_key_event s (.keydown k) t).correct_hits = s.correct_hits + 1 ∧
        (process_key_event s (.keydown k) t).wrong_notes = s.wrong_notes) ∧
    ((n.pitch == p) = false →
      ∃ n', (process_key_event s (.keydown k) t).song_data.get?
          (select_from_active s.song_data s.override_instruments s.current_instrument
            a rest).1 = some n' ∧
        n'.wrong = true ∧ n'.played = false ∧ n'.missed = false ∧
        (process_key_event s (.keydown k) t).wrong_notes = s.wrong_notes + 1 ∧
        (process_key_event s (.keydown k) t).score = s.score ∧
        (process_key_event s (.keydown k) t).correct_hits = s.correct_hits) := by
  have hw := mapped_key_ne_toggle k p hk
  obtain ⟨hmem, hmin⟩ := select_from_active_spec s.song_data s.override_instruments
    s.current_instrument a rest
  have hsel_active : select_from_active s.song_data s.override_instruments
      s.current_instrument a rest ∈ find_active_notes s.song_data t :=
    hact ▸ press_candidates_subset hmem
  obtain ⟨m, hm, hflag⟩ := find_active_notes_mem (t := t)
    (j := (select_from_active s.song_data s.override_instruments
      s.current_instrument a rest).1)
    (d := (select_from_active s.song_data s.override_instruments
      s.current_instrument a rest).2) (by simpa using hsel_active)
  have hmn : m = n := Option.some.inj (hm.symm.trans hn)
  subst hmn
  have hgetD : s.song_data.getD (select_from_active s.song_data s.override_instruments
      s.current_instrument a rest).1 dummyNote = m := getD_of_get? hn
  have hgetE : (s.song_data[(select_from_active s.song_data s.override_instruments
      s.current_instrument a rest).1]?).getD dummyNote = m := by
    rw [← List.getD_eq_getElem?_getD]
    exact hgetD
  have hfl1 : m.played = false := by
    revert hflag; unfold flagged; cases m.played <;> simp
  have hfl2 : m.missed = false := by
    revert hflag; unfold flagged; cases m.missed <;> simp
  have hfl3 : m.wrong = false := by
    revert hflag; unfold flagged; cases m.wrong <;> simp
  refine ⟨hsel_active, by rw [hact]; exact hmin, ?_, ?_, ?_⟩
  · intro hov
    rw [hov, hact]
    exact press_candidates_of_override_false _ _ _
  · intro hp
    have hstep : process_key_event s (.keydown k) t =
        { s with
          last_key_pressed := some p,
          currently_playing := assocSet s.currently_playing k (t, p),
          song_data := s.song_data.set (select_from_active s.song_data
            s.override_instruments s.current_instrument a rest).1
            { m with
              played := true, expected_duration := m.duration,
              actual_duration := 0, beat_accuracy := 0 },
          score := s.score + 1,
          correct_hits := s.correct_hits + 1,
          key_to_note_map := assocSet s.key_to_note_map k
            (select_from_active s.song_data s.override_instruments
              s.current_instrument a rest).1,
          note_accuracy := bump_note_accuracy s.note_accuracy p true } := by
      simp [process_key_event, hw, hk, judge_press, hact, hgetD, hgetE, hp]
    refine ⟨{ m with
        played := true, expected_duration := m.duration,
        actual_duration := 0, beat_accuracy := 0 }, ?_, rfl, hfl2, hfl3, ?_, ?_, ?_⟩
    · rw [hstep]
      show (s.song_data.set _ _).get? _ = _
      rw [List.get?_set]
      simp [hn, ← List.get?_eq_getElem?]
    · rw [hstep]
    · rw [hstep]
    · rw [hstep]
  · intro hp
    have hstep : process_key_event s (.keydown k) t =
        { s with
          last_key_pressed := some p,
          currently_playing := assocSet s.currently_playing k (t, p),
          song_data := s.song_data.set (select_from_active s.song_data
            s.override_instruments s.current_instrument a rest).1
            { m with wrong := true },
          wrong_notes := s.wrong_notes + 1,
          note_accuracy := bump_note_accuracy s.note_accuracy p false } := by
      simp [process_key_event, hw, hk, judge_press, hact, hgetD, hgetE, hp]
    refine ⟨{ m with wrong := true }, ?_, rfl, hfl1, hfl2, ?_, ?_, ?_⟩
    · rw [hstep]
      show (s.song_data.set _ _).get? _ = _
      rw [List.get?_set]
      simp [hn, ← List.get?_eq_getElem?]
    · rw [hstep]
    · rw [hstep]
    · rw [hstep]

/-- Witness for C2 at a concrete press: key 1 (`Do`) pressed at time 0 of the
example song with the override off marks the selected note played and bumps the
score. -/
theorem judge_press_selects_nearest_witness :
    (process_key_event (init_state exSong) (.keydown 49) 0).score =
      (init_state exSong).score + 1 ∧
    ((process_key_event (init_state exSong) (.keydown 49) 0).song_data.getD 0
      dummyNote).played = true := by
  obtain ⟨-, -, -, hcorrect, -⟩ :=
    judge_press_selects_nearest (init_state exSong) 49 "Do" 0 (0, 0) [(1, 30)]
      (prepare_note (⟨"Do", 4, 0, 1, 100, 0⟩ : RawNote))
      rfl (by with_unfolding_all rfl) (by with_unfolding_all rfl)
  obtain ⟨n', hn', hp', -, -, hsc, -, -⟩ := hcorrect (by with_unfolding_all rfl)
  have hsel1 : (select_from_active (init_state exSong).song_data
      (init_state exSong).override_instruments (init_state exSong).current_instrument
      (0, 0) [(1, 30)]).1 = 0 := by with_unfolding_all rfl
  rw [hsel1] at hn'
  exact ⟨hsc, by rw [getD_of_get? hn']; exact hp'⟩

/-- Counterexample to C2 as stated: in a session where the player toggled the
instrument to guitar, a press of key 1 (`Do`) at time 0 has active notes at
distances 0 (the piano note, index 0 — the unique distance minimizer, with
matching pitch `Do`) and 30 (the guitar note, index 1); the judge leaves the
nearest note unclassified and marks the farther guitar note played instead. -/
theorem judge_press_selects_nearest_cex :
    assocGet KEY_MAPPINGS 49 = some "Do" ∧
    find_active_notes exCexState.song_data 0 = [(0, 0), (1, 30)] ∧
    (exCexState.song_data.getD 0 dummyNote).pitch = "Do" ∧
    ((process_key_event exCexState (.keydown 49) 0).song_data.getD 0 dummyNote).played
      = false ∧
    ((process_key_event exCexState (.keydown 49) 0).song_data.getD 0 dummyNote).wrong
      = false ∧
    ((process_key_event exCexState (.keydown 49) 0).song_data.getD 0 dummyNote).missed
      = false ∧
    ((process_key_event exCexState (.keydown 49) 0).song_data.getD 1 dummyNote).played
      = true := by
  refine ⟨rfl, ?_, ?_, ?_, ?_, ?_, ?_⟩ <;> with_unfolding_all rfl

/-! ## C3: beat accuracy on release of a bound key -/

/-- C3: releasing at time `t` a key whose press record started at time `s0` and
which is bound to a note with positive expected duration `d` writes
`actual_duration = t - s0` and `beat_accuracy = 100` if `t - s0 ≥ d`, else
`100·(t - s0)/d`, a value always in `[0, 100]` (0 when held 0, 50 at half the
duration, by the formula); the accuracy is added to the session running sum and
the running count grows by one; the note's classification flags are untouched. -/
theorem release_beat_accuracy (s : GameState) (k : ℕ) (p pn : String) (t s0 : ℚ)
    (i : ℕ) (n : Note)
    (hk : assocGet KEY_MAPPINGS k = some p)
    (hcp : assocGet s.currently_playing k = some (s0, pn))
    (hbind : assocGet s.key_to_note_map k = some i)
    (hn : s.song_data.get? i = some n)
    (hd : 0 < n.expected_duration)
    (hts : s0 ≤ t) :
    ∃ n', (process_key_event s (.keyup k) t).song_data.get? i = some n' ∧
      n'.actual_duration = t - s0 ∧
      n'.beat_accuracy =
        (if n.expected_duration ≤ t - s0 then (100 : ℚ)
         else (t - s0) / n.expected_duration * 100) ∧
      0 ≤ n'.beat_accuracy ∧ n'.beat_accuracy ≤ 100 ∧
      n'.played = n.played ∧ n'.missed = n.missed ∧ n'.wrong = n.wrong ∧
      (process_key_event s (.keyup k) t).beat_accuracy_total =
        s.beat_accuracy_total + n'.beat_accuracy ∧
      (process_key_event s (.keyup k) t).beat_accuracy_count =
        s.beat_accuracy_count + 1 := by
  have hgetD : s.song_data.getD i dummyNote = n := getD_of_get? hn
  have hgetE : (s.song_data[i]?).getD dummyNote = n := by
    rw [← List.getD_eq_getElem?_getD]
    exact hgetD
  have hstep : process_key_event s (.keyup k) t =
      { s with
        song_data := s.song_data.set i
          { n with
            actual_duration := t - s0,
            beat_accuracy :=
              if t - s0 ≥ n.expected_duration then (100 : ℚ)
              else (t - s0) / n.expected_duration * 100 },
        beat_accuracy_total := s.beat_accuracy_total +
          (if t - s0 ≥ n.expected_duration then (100 : ℚ)
           else (t - s0) / n.expected_duration * 100),
        beat_accuracy_count := s.beat_accuracy_count + 1,
        key_to_note_map := assocErase s.key_to_note_map k,
        currently_playing := assocErase s.currently_playing k } := by
    simp [process_key_event, hk, judge_release, hcp, hbind, hgetD, hgetE]
  refine ⟨{ n with
      actual_duration := t - s0,
      beat_accuracy :=
        if t - s0 ≥ n.expected_duration then (100 : ℚ)
        else (t - s0) / n.expected_duration * 100 }, ?_, rfl, ?_, ?_, ?_, rfl, rfl, rfl,
    ?_, ?_⟩
  · rw [hstep]
    show (s.song_data.set _ _).get? _ = _
    rw [List.get?_set]
    simp [hn, ← List.get?_eq_getElem?]
  · show (if t - s0 ≥ n.expected_duration then (100 : ℚ)
      else (t - s0) / n.expected_duration * 100) = _
    simp [ge_iff_le]
  · show (0 : ℚ) ≤ if t - s0 ≥ n.expected_duration then (100 : ℚ)
      else (t - s0) / n.expected_duration * 100
    split
    · norm_num
    · have h0 : (0 : ℚ) ≤ t - s0 := sub_nonneg.mpr hts
      exact mul_nonneg (div_nonneg h0 (le_of_lt hd)) (by norm_num)
  · show (if t - s0 ≥ n.expected_duration then (100 : ℚ)
      else (t - s0) / n.expected_duration * 100) ≤ 100
    split
    · norm_num
    · next hc =>
      have h1 : (t - s0) / n.expected_duration ≤ 1 :=
        (div_le_one hd).mpr (le_of_not_le hc)
      calc (t - s0) / n.expected_duration * 100 ≤ 1 * 100 :=
            mul_le_mul_of_nonneg_right h1 (by norm_num)
        _ = 100 := by norm_num
  · rw [hstep]
  · rw [hstep]

/-- Witness for C3: a correct press of key 1 at time 0 (note duration 1) is
released at time 1/2; the bound note gets beat accuracy 50 and actual duration
1/2, and the measured-note count grows by one. -/
theorem release_beat_accuracy_witness :
    ((process_key_event (process_key_event (init_state exSong) (.keydown 49) 0)
        (.keyup 49) (1/2)).song_data.getD 0 dummyNote).beat_accuracy = 50 ∧
    ((process_key_event (process_key_event (init_state exSong) (.keydown 49) 0)
        (.keyup 49) (1/2)).song_data.getD 0 dummyNote).actual_duration = 1/2 ∧
    (process_key_event (process_key_event (init_state exSong) (.keydown 49) 0)
        (.keyup 49) (1/2)).beat_accuracy_count =
      (process_key_event (init_state exSong) (.keydown 49) 0).beat_accuracy_count
        + 1 := by
  obtain ⟨n', hn', hact, hacc, -, -, -, -, -, htot, hcnt⟩ :=
    release_beat_accuracy (process_key_event (init_state exSong) (.keydown 49) 0)
      49 "Do" "Do" (1/2) 0 0
      { prepare_note (⟨"Do", 4, 0, 1, 100, 0⟩ : RawNote) with played := true }
      rfl (by with_unfolding_all rfl) (by with_unfolding_all rfl)
      (by with_unfolding_all rfl)
      (by show (0 : ℚ) < 1; norm_num) (by norm_num)
  have hexp : ({ prepare_note (⟨"Do", 4, 0, 1, 100, 0⟩ : RawNote) with
      played := true } : Note).expected_duration = 1 := by with_unfolding_all rfl
  rw [hexp] at hacc
  refine ⟨?_, ?_, hcnt⟩
  · rw [getD_of_get? hn', hacc]
    norm_num
  · rw [getD_of_get? hn', hact]
    norm_num

/-! ## C1: terminal classification -/

theorem missCondition_flags {t : ℚ} {n : Note} (h : missCondition t n = true) :
    n.played = false ∧ n.missed = false ∧ n.wrong = false := by
  unfold missCondition at h
  simp only [Bool.and_eq_true, Bool.not_eq_true'] at h
  exact ⟨h.1.1.1, h.1.1.2, h.1.2⟩

theorem flagCount_of_flags {n : Note} (hp : n.played = false) (hm : n.missed = false)
    (hw : n.wrong = false) : flagCount n = 0 := by
  unfold flagCount
  rw [hp, hm, hw]
  rfl

/-- Each session operation leaves every note either with its classification
unchanged or, when the note was unclassified, with exactly one flag newly set;
the song list keeps its length. -/
theorem applyOp_song_evolution (s : GameState) (op : GameOp) (t : ℚ) :
    (applyOp s op t).song_data.length = s.song_data.length ∧
    ∀ i n, s.song_data.get? i = some n →
      ∃ n', (applyOp s op t).song_data.get? i = some n' ∧
        ((n'.played = n.played ∧ n'.missed = n.missed ∧ n'.wrong = n.wrong) ∨
         (flagged n = false ∧ flagCount n' = 1)) := by
  cases op with
  | sweep =>
    constructor
    · show (s.song_data.map _).length = _
      rw [List.length_map]
    · intro i n hn
      refine ⟨if n.appear_time ≤ t ∧ missCondition t n = true then
          { n with missed := true } else n, ?_, ?_⟩
      · show (s.song_data.map _).get? i = _
        rw [List.get?_map, hn]
        rfl
      · by_cases hc : n.appear_time ≤ t ∧ missCondition t n = true
        · obtain ⟨hp, hm, hw⟩ := missCondition_flags hc.2
          right
          constructor
          · simp [flagged, hp, hm, hw]
          · simp only [hc, and_self, if_true, hc.1, hc.2]
            unfold flagCount
            simp [hp, hw]
        · left
          simp [if_neg hc]
  | ev e =>
    cases e with
    | keyup k =>
      cases hm : assocGet KEY_MAPPINGS k with
      | none =>
        have hsong : (applyOp s (.ev (.keyup k)) t).song_data = s.song_data := by
          simp [applyOp, process_key_event, hm]
        rw [hsong]
        exact ⟨rfl, fun i n hn => ⟨n, hn, Or.inl ⟨rfl, rfl, rfl⟩⟩⟩
      | some p =>
        cases hcp : assocGet s.currently_playing k with
        | none =>
          have hsong : (applyOp s (.ev (.keyup k)) t).song_data = s.song_data := by
            simp [applyOp, process_key_event, hm, judge_release, hcp]
          rw [hsong]
          exact ⟨rfl, fun i n hn => ⟨n, hn, Or.inl ⟨rfl, rfl, rfl⟩⟩⟩
        | some pd =>
          cases hbind : assocGet s.key_to_note_map k with
          | none =>
            have hsong : (applyOp s (.ev (.keyup k)) t).song_data = s.song_data := by
              simp [applyOp, process_key_event, hm, judge_release, hcp, hbind]
            rw [hsong]
            exact ⟨rfl, fun i n hn => ⟨n, hn, Or.inl ⟨rfl, rfl, rfl⟩⟩⟩
          | some i0 =>
            have hsong : (applyOp s (.ev (.keyup k)) t).song_data =
                s.song_data.set i0
                  { s.song_data.getD i0 dummyNote with
                    actual_duration := t - pd.1,
                    beat_accuracy :=
                      if t - pd.1 ≥ (s.song_data.getD i0 dummyNote).expected_duration
                      then (100 : ℚ)
                      else (t - pd.1) /
                        (s.song_data.getD i0 dummyNote).expected_duration * 100 } := by
              simp [applyOp, process_key_event, hm, judge_release, hcp, hbind]
            rw [hsong]
            refine ⟨List.length_set .., ?_⟩
            intro i n hn
            by_cases hii : i0 = i
            · subst hii
              have hgetD : s.song_data.getD i0 dummyNote = n := getD_of_get? hn
              rw [hgetD]
              refine ⟨{ n with
                  actual_duration := t - pd.1,
                  beat_accuracy :=
                    if t - pd.1 ≥ n.expected_duration then (100 : ℚ)
                    else (t - pd.1) / n.expected_duration * 100 },
                ?_, Or.inl ⟨rfl, rfl, rfl⟩⟩
              rw [List.get?_set]
              simp [hn, ← List.get?_eq_getElem?]
            · refine ⟨n, ?_, Or.inl ⟨rfl, rfl, rfl⟩⟩
              rw [List.get?_set, if_neg hii]
              exact hn
    | keydown k =>
      cases hkw : (k == K_w) with
      | true =>
        have hsong : (applyOp s (.ev (.keydown k)) t).song_data = s.song_data := by
          simp [applyOp, process_key_event, hkw, toggle_instrument]
        rw [hsong]
        exact ⟨rfl, fun i n hn => ⟨n, hn, Or.inl ⟨rfl, rfl, rfl⟩⟩⟩
      | false =>
        cases hm : assocGet KEY_MAPPINGS k with
        | none =>
          have hsong : (applyOp s (.ev (.keydown k)) t).song_data = s.song_data := by
            simp [applyOp, process_key_event, hkw, hm]
          rw [hsong]
          exact ⟨rfl, fun i n hn => ⟨n, hn, Or.inl ⟨rfl, rfl, rfl⟩⟩⟩
        | some p =>
          cases hact : find_active_notes s.song_data t with
          | nil =>
            have hsong : (applyOp s (.ev (.keydown k)) t).song_data = s.song_data := by
              simp [applyOp, process_key_event, hkw, hm, judge_press, hact]
            rw [hsong]
            exact ⟨rfl, fun i n hn => ⟨n, hn, Or.inl ⟨rfl, rfl, rfl⟩⟩⟩
          | cons a rest =>
            obtain ⟨hmem, -⟩ := select_from_active_spec s.song_data
              s.override_instruments s.current_instrument a rest
            have hsel_active : select_from_active s.song_data s.override_instruments
                s.current_instrument a rest ∈ find_active_notes s.song_data t :=
              hact ▸ press_candidates_subset hmem
            obtain ⟨m, hm2, hflag⟩ := find_active_notes_mem
              (t := t)
              (j := (select_from_active s.song_data s.override_instruments
                s.current_instrument a rest).1)
              (d := (select_from_active s.song_data s.override_instruments
                s.current_instrument a rest).2) (by simpa using hsel_active)
            have hgetD : s.song_data.getD (select_from_active s.song_data
                s.override_instruments s.current_instrument a rest).1 dummyNote = m :=
              getD_of_get? hm2
            have hgetE : (s.song_data[(select_from_active s.song_data
                s.override_instruments s.current_instrument a rest).1]?).getD
                  dummyNote = m := by
              rw [← List.getD_eq_getElem?_getD]
              exact hgetD
            have hp1 : m.played = false := by
              revert hflag; unfold flagged; cases m.played <;> simp
            have hp2 : m.missed = false := by
              revert hflag; unfold flagged; cases m.missed <;> simp
            have hp3 : m.wrong = false := by
              revert hflag; unfold flagged; cases m.wrong <;> simp
            by_cases hp : (m.pitch == p) = true
            · have hsong : (applyOp s (.ev (.keydown k)) t).song_data =
                  s.song_data.set (select_from_active s.song_data
                    s.override_instruments s.current_instrument a rest).1
                    { m with
                      played := true, expected_duration := m.duration,
                      actual_duration := 0, beat_accuracy := 0 } := by
                simp [applyOp, process_key_event, hkw, hm, judge_press, hact,
                  hgetD, hgetE, hp]
              rw [hsong]
              refine ⟨List.length_set .., ?_⟩
              intro i n hn
              by_cases hii : (select_from_active s.song_data s.override_instruments
                  s.current_instrument a rest).1 = i
              · have hnm : n = m := by
                  rw [← hii] at hn
                  exact Option.some.inj (hn.symm.trans hm2)
                subst hnm
                subst hii
                refine ⟨{ n with
                    played := true, expected_duration := n.duration,
                    actual_duration := 0, beat_accuracy := 0 },
                  ?_, Or.inr ⟨hflag, ?_⟩⟩
                · rw [List.get?_set]
                  simp [hm2, ← List.get?_eq_getElem?]
                · show (if true then 1 else 0) + (if n.missed then 1 else 0) +
                    (if n.wrong then 1 else 0) = 1
                  rw [hp2, hp3]
                  rfl
              · refine ⟨n, ?_, Or.inl ⟨rfl, rfl, rfl⟩⟩
                rw [List.get?_set, if_neg hii]
                exact hn
            · have hsong : (applyOp s (.ev (.keydown k)) t).song_data =
                  s.song_data.set (select_from_active s.song_data
                    s.override_instruments s.current_instrument a rest).1
                    { m with wrong := true } := by
                simp [applyOp, process_key_event, hkw, hm, judge_press, hact,
                  hgetD, hgetE, hp]
              rw [hsong]
              refine ⟨List.length_set .., ?_⟩
              intro i n hn
              by_cases hii : (select_from_active s.song_data s.override_instruments
                  s.current_instrument a rest).1 = i
              · have hnm : n = m := by
                  rw [← hii] at hn
                  exact Option.some.inj (hn.symm.trans hm2)
                subst hnm
                subst hii
                refine ⟨{ n with wrong := true }, ?_, Or.inr ⟨hflag, ?_⟩⟩
                · rw [List.get?_set]
                  simp [hm2, ← List.get?_eq_getElem?]
                · show (if n.played then 1 else 0) + (if n.missed then 1 else 0) +
                    (if true then 1 else 0) = 1
                  rw [hp1, hp2]
                  rfl
              · refine ⟨n, ?_, Or.inl ⟨rfl, rfl, rfl⟩⟩
                rw [List.get?_set, if_neg hii]
                exact hn

theorem applyOp_preserves_inv {s : GameState} (op : GameOp) (t : ℚ)
    (h : Inv s) : Inv (applyOp s op t) := by
  intro n' hmem
  obtain ⟨j, hj⟩ := List.mem_iff_get?.mp hmem
  have hlen := (applyOp_song_evolution s op t).1
  have hjlt : j < s.song_data.length := by
    obtain ⟨h2, -⟩ := List.get?_eq_some.mp hj
    rw [hlen] at h2
    exact h2
  have hn0 : s.song_data.get? j = some (s.song_data.get ⟨j, hjlt⟩) :=
    List.get?_eq_get hjlt
  obtain ⟨n'', hn'', hdisj⟩ := (applyOp_song_evolution s op t).2 j _ hn0
  have hne : n'' = n' := Option.some.inj (hn''.symm.trans hj)
  subst hne
  rcases hdisj with ⟨hp, hm, hw⟩ | ⟨-, hone⟩
  · have hle := h _ (List.get?_mem hn0)
    unfold flagCount at *
    rw [hp, hm, hw]
    exact hle
  · omega

theorem init_state_inv (raw : List RawNote) : Inv (init_state raw) := by
  intro n hmem
  obtain ⟨r, -, hr⟩ := List.mem_map.mp hmem
  have h0 : flagCount (prepare_note r) = 0 := rfl
  rw [← hr, h0]
  omega

theorem runOps_inv (raw : List RawNote) (ops : List (GameOp × ℚ)) :
    Inv (runOps (init_state raw) ops) := by
  have main : ∀ (ops : List (GameOp × ℚ)) (s : GameState),
      Inv s → Inv (runOps s ops) := by
    intro ops
    induction ops with
    | nil => intro s hs; exact hs
    | cons q rest ih =>
      intro s hs
      exact ih (applyOp s q.1 q.2) (applyOp_preserves_inv q.1 q.2 hs)
  exact main ops (init_state raw) (init_state_inv raw)

/-- C1: in every reachable state of a play session (any trace of key events and
miss sweeps from the prepared song), every note carries at most one of the
flags \x7bplayed, missed, wrong\x7d; a note that carries one keeps exactly that
classification across any further press judgment, release, or miss sweep; and
a flagged note is excluded from the activeNotes computation at every time. -/
theorem note_classification_terminal (raw : List RawNote) (ops : List (GameOp × ℚ))
    (op : GameOp) (t : ℚ) (i : ℕ) (n : Note)
    (hn : (runOps (init_state raw) ops).song_data.get? i = some n) :
    flagCount n ≤ 1 ∧
    (flagged n = true →
      (∃ n', (applyOp (runOps (init_state raw) ops) op t).song_data.get? i = some n' ∧
        n'.played = n.played ∧ n'.missed = n.missed ∧ n'.wrong = n.wrong) ∧
      ∀ u d, ¬ ((i, d) ∈
        find_active_notes (runOps (init_state raw) ops).song_data u)) := by
  constructor
  · exact runOps_inv raw ops n (List.get?_mem hn)
  · intro hfl
    constructor
    · obtain ⟨n', hn', hdisj⟩ :=
        (applyOp_song_evolution (runOps (init_state raw) ops) op t).2 i n hn
      rcases hdisj with ⟨hp, hm, hw⟩ | ⟨hunfl, -⟩
      · exact ⟨n', hn', hp, hm, hw⟩
      · rw [hfl] at hunfl
        exact absurd hunfl (by simp)
    · intro u d hmem
      obtain ⟨m, hm2, hflm⟩ := find_active_notes_mem hmem
      have : m = n := Option.some.inj (hm2.symm.trans hn)
      subst this
      rw [hfl] at hflm
      exact absurd hflm (by simp)

/-- Witness for C1: after a correct press of key 1 at time 0, the note at index
0 is classified `played`; its flag count is 1 and it is no longer active at
time 0 (it was active there before the press). -/
theorem note_classification_terminal_witness :
    flagCount { prepare_note (⟨"Do", 4, 0, 1, 100, 0⟩ : RawNote) with
      played := true } ≤ 1 ∧
    ¬ ((0, 0) ∈ find_active_notes
      (runOps (init_state exSong) [(.ev (.keydown 49), 0)]).song_data 0) := by
  obtain ⟨hcount, hrest⟩ := note_classification_terminal exSong
    [(.ev (.keydown 49), 0)] .sweep 0 0
    { prepare_note (⟨"Do", 4, 0, 1, 100, 0⟩ : RawNote) with played := true }
    (by with_unfolding_all rfl)
  exact ⟨hcount, (hrest (by with_unfolding_all rfl)).2 0 0⟩

/-! ## C7: malformed track tokens -/

/-- Core parse characterization: on any input whose 4- or 5-field tokens all
convert, `parse_music_data` returns the denoted notes in order and one skip
warning per wrong-field-count token. -/
theorem parse_music_data_of_tokens_ok (s : String)
    (h : ∀ tok ∈ splitWS s, tokenFieldCountOk tok = true →
      (tokenDenote tok).isSome = true) :
    parse_music_data s =
      .ok ((splitWS s).filterMap tokenDenote,
        ((splitWS s).filter (fun tok => !tokenFieldCountOk tok)).map
          (fun tok => "Warning: Skipping malformed entry: " ++ tok)) := by
  unfold parse_music_data
  suffices hgen : ∀ toks : List String,
      (∀ tok ∈ toks, tokenFieldCountOk tok = true → (tokenDenote tok).isSome = true) →
      parse_entries toks =
        .ok (toks.filterMap tokenDenote,
          (toks.filter (fun tok => !tokenFieldCountOk tok)).map
            (fun tok => "Warning: Skipping malformed entry: " ++ tok)) by
    exact hgen (splitWS s) h
  intro toks htoks
  induction toks with
  | nil => rfl
  | cons e rest ih =>
    have he := htoks e (List.mem_cons_self e rest)
    have hrest := ih (fun tok hm hok => htoks tok (List.mem_cons_of_mem e hm) hok)
    rcases hsp : splitOnChar '-' e with _ | ⟨f1, _ | ⟨f2, _ | ⟨f3, _ | ⟨f4, _ |
      ⟨f5, _ | rest5⟩⟩⟩⟩⟩
    · have hden : tokenDenote e = none := by simp [tokenDenote, hsp]
      have hok : tokenFieldCountOk e = false := by simp [tokenFieldCountOk, hsp]
      simp [parse_entries, hsp, hrest, hden, hok]
    · have hden : tokenDenote e = none := by simp [tokenDenote, hsp]
      have hok : tokenFieldCountOk e = false := by simp [tokenFieldCountOk, hsp]
      simp [parse_entries, hsp, hrest, hden, hok]
    · have hden : tokenDenote e = none := by simp [tokenDenote, hsp]
      have hok : tokenFieldCountOk e = false := by simp [tokenFieldCountOk, hsp]
      simp [parse_entries, hsp, hrest, hden, hok]
    · have hden : tokenDenote e = none := by simp [tokenDenote, hsp]
      have hok : tokenFieldCountOk e = false := by simp [tokenFieldCountOk, hsp]
      simp [parse_entries, hsp, hrest, hden, hok]
    · -- four fields
      have hok : tokenFieldCountOk e = true := by simp [tokenFieldCountOk, hsp]
      have hsome := he hok
      cases hpf : parseFields f1 f2 f3 f4 INSTRUMENTS_PIANO with
      | error msg =>
        rw [show tokenDenote e = (parseFields f1 f2 f3 f4 INSTRUMENTS_PIANO).toOption
          from by simp [tokenDenote, hsp], hpf] at hsome
        simp [Except.toOption] at hsome
      | ok n =>
        have hden : tokenDenote e = some n := by
          simp [tokenDenote, hsp, hpf, Except.toOption]
        simp [parse_entries, hsp, hpf, hrest, hden, hok]
    · -- five fields
      have hok : tokenFieldCountOk e = true := by simp [tokenFieldCountOk, hsp]
      have hsome := he hok
      cases hins : pyIntOpt f5 with
      | none =>
        rw [show tokenDenote e = none from by simp [tokenDenote, hsp, hins]] at hsome
        simp at hsome
      | some ival =>
        cases hpf : parseFields f1 f2 f3 f4 ival with
        | error msg =>
          rw [show tokenDenote e = (parseFields f1 f2 f3 f4 ival).toOption
            from by simp [tokenDenote, hsp, hins], hpf] at hsome
          simp [Except.toOption] at hsome
        | ok n =>
          have hden : tokenDenote e = some n := by
            simp [tokenDenote, hsp, hins, hpf, Except.toOption]
          simp [parse_entries, hsp, hins, hpf, hrest, hden, hok]
    · -- six or more fields
      have hden : tokenDenote e = none := by simp [tokenDenote, hsp]
      have hok : tokenFieldCountOk e = false := by
        simp [tokenFieldCountOk, hsp, Nat.succ_ne_zero]
      simp [parse_entries, hsp, hrest, hden, hok]

/-- C7 (amended): on any input whose 4- or 5-field tokens all convert (numeric
fields parse), `parse_music_data` returns exactly the notes denoted by those
tokens in order, never aborts, and emits one skip warning per token whose
hyphen-split field count is neither 4 nor 5.  (Without the numeric-conversion
hypothesis the parse aborts wholesale on a `ValueError`; see the
counterexample.) -/
theorem parse_skips_wrong_field_count (s : String)
    (h : ∀ tok ∈ splitWS s, tokenFieldCountOk tok = true →
      (tokenDenote tok).isSome = true) :
    parse_music_data s =
      .ok ((splitWS s).filterMap tokenDenote,
        ((splitWS s).filter (fun tok => !tokenFieldCountOk tok)).map
          (fun tok => "Warning: Skipping malformed entry: " ++ tok)) :=
  parse_music_data_of_tokens_ok s h

/-- Witness for C7 on a concrete track string with one malformed (1-field)
token between two good tokens. -/
theorem parse_skips_wrong_field_count_witness :
    parse_music_data "Do4-0.0-0.5-100-0 xx Re4-2.0-1.0-100" =
      .ok ([⟨"Do", 4, 0, 1/2, 100, 0⟩, ⟨"Re", 4, 2, 1, 100, 0⟩],
        ["Warning: Skipping malformed entry: xx"]) := by
  have h := parse_skips_wrong_field_count "Do4-0.0-0.5-100-0 xx Re4-2.0-1.0-100"
    (by with_unfolding_all decide)
  exact h.trans (by with_unfolding_all rfl)

/-- Counterexample to C7 as stated: the second token has an accepted field
count (4) but an empty octave digit string, so `int('')` raises and the whole
parse aborts; the well-formed first token's note is not returned. -/
theorem parse_skips_wrong_field_count_cex :
    (tokenDenote "Do4-0.0-1.0-100").isSome = true ∧
    tokenFieldCountOk "Xy-0.0-1.0-100" = true ∧
    parse_music_data "Do4-0.0-1.0-100 Xy-0.0-1.0-100" = .error "ValueError" := by
  refine ⟨?_, ?_, ?_⟩ <;> with_unfolding_all rfl

/-! ## C5 groundwork: decimal strings round-trip -/

theorem digitChar_toNat {d : ℕ} (h : d < 10) : (digitChar d).toNat = 48 + d := by
  interval_cases d <;> rfl

theorem digitChar_isDigit {d : ℕ} (h : d < 10) : (digitChar d).isDigit = true := by
  interval_cases d <;> rfl

theorem beq_dot_false_of_isDigit {c : Char} (h : c.isDigit = true) :
    (c == '.') = false :=
  beq_false_of_isDigit_of_ne h (by decide)

theorem beq_hyphen_false_of_isDigit {c : Char} (h : c.isDigit = true) :
    (c == '-') = false :=
  beq_false_of_isDigit_of_ne h (by decide)

theorem beq_plus_false_of_isDigit {c : Char} (h : c.isDigit = true) :
    (c == '+') = false :=
  beq_false_of_isDigit_of_ne h (by decide)

theorem digitsVal_append_singleton (l : List Char) (c : Char) :
    digitsVal (l ++ [c]) = 10 * digitsVal l + (c.toNat - 48) := by
  unfold digitsVal
  rw [List.foldl_append]
  rfl

theorem digitsVal_reverse (l : List Char) : digitsVal l.reverse = valLSB l := by
  induction l with
  | nil => rfl
  | cons c cs ih =>
    rw [List.reverse_cons, digitsVal_append_singleton, ih]
    show _ = (c.toNat - 48) + 10 * valLSB cs
    omega

theorem valLSB_natDigitsAux : ∀ fuel n, n ≤ fuel → valLSB (natDigitsAux fuel n) = n := by
  intro fuel
  induction fuel with
  | zero =>
    intro n hn
    interval_cases n
    rfl
  | succ fuel ih =>
    intro n hn
    cases n with
    | zero => rfl
    | succ m =>
      show (digitChar ((m + 1) % 10)).toNat - 48 + 10 * valLSB (natDigitsAux fuel ((m + 1) / 10)) = m + 1
      rw [digitChar_toNat (Nat.mod_lt _ (by norm_num)), ih ((m + 1) / 10) (by omega)]
      have := Nat.mod_add_div (m + 1) 10
      omega

theorem natDigitsAux_all_digits : ∀ fuel n, ∀ c ∈ natDigitsAux fuel n, c.isDigit = true := by
  intro fuel
  induction fuel with
  | zero => intro n c hc; cases hc
  | succ fuel ih =>
    intro n c hc
    cases n with
    | zero => cases hc
    | succ m =>
      rcases List.mem_cons.mp hc with h | h
      · rw [h]; exact digitChar_isDigit (Nat.mod_lt _ (by norm_num))
      · exact ih _ c h

theorem natDigitsAux_ne_nil : ∀ fuel n, 0 < n → n ≤ fuel → natDigitsAux fuel n ≠ [] := by
  intro fuel n h0 hle
  cases fuel with
  | zero => omega
  | succ f =>
    cases n with
    | zero => omega
    | succ m => simp [natDigitsAux]

theorem natToString_toList (n : ℕ) :
    (natToString n).toList = if n = 0 then ['0'] else (natDigitsAux n n).reverse := by
  unfold natToString
  split <;> rfl

theorem natToString_all_digits (n : ℕ) :
    ∀ c ∈ (natToString n).toList, c.isDigit = true := by
  intro c hc
  rw [natToString_toList] at hc
  split at hc
  · rcases List.mem_singleton.mp hc with rfl
    decide
  · exact natDigitsAux_all_digits n n c (List.mem_reverse.mp hc)

theorem natToString_ne_nil (n : ℕ) : (natToString n).toList ≠ [] := by
  rw [natToString_toList]
  split
  · simp
  · next h =>
    intro hrev
    exact natDigitsAux_ne_nil n n (by omega) (le_refl n)
      (by simpa using List.reverse_eq_nil_iff.mp hrev)

theorem digitsVal_natToString (n : ℕ) : digitsVal (natToString n).toList = n := by
  rw [natToString_toList]
  split
  · next h => rw [h]; rfl
  · rw [digitsVal_reverse]
    exact valLSB_natDigitsAux n n (le_refl n)

theorem natDigitsAux_length : ∀ fuel n j, n ≤ fuel → n < 10 ^ j →
    (natDigitsAux fuel n).length ≤ j := by
  intro fuel
  induction fuel with
  | zero =>
    intro n j hle hlt
    interval_cases n
    simp [natDigitsAux]
  | succ fuel ih =>
    intro n j hle hlt
    cases n with
    | zero => simp [natDigitsAux]
    | succ m =>
      cases j with
      | zero => simp at hlt
      | succ j =>
        show (natDigitsAux fuel ((m + 1) / 10)).length + 1 ≤ j + 1
        have hdiv : (m + 1) / 10 < 10 ^ j := by
          rw [Nat.div_lt_iff_lt_mul (by norm_num)]
          calc m + 1 < 10 ^ (j + 1) := hlt
            _ = 10 ^ j * 10 := by ring
        have := ih ((m + 1) / 10) j (by omega) hdiv
        omega

theorem natToString_length_le {n j : ℕ} (h0 : 0 < j) (h : n < 10 ^ j) :
    (natToString n).toList.length ≤ j := by
  rw [natToString_toList]
  split
  · simpa using h0
  · rw [List.length_reverse]
    exact natDigitsAux_length n n j (le_refl n) h

theorem digitsVal_replicate_zero (j : ℕ) (l : List Char) :
    digitsVal (List.replicate j '0' ++ l) = digitsVal l := by
  induction j with
  | zero => rfl
  | succ j ih =>
    show digitsVal ('0' :: (List.replicate j '0' ++ l)) = digitsVal l
    unfold digitsVal at *
    exact ih

theorem splitOnCharAux_no_sep {c : Char} {l : List Char}
    (h : ∀ x ∈ l, (x == c) = false) :
    ∀ acc, splitOnCharAux c l acc = [acc.reverse ++ l] := by
  induction l with
  | nil => intro acc; simp [splitOnCharAux]
  | cons x xs ih =>
    intro acc
    have hx := h x (List.mem_cons_self x xs)
    show (if x == c then _ else splitOnCharAux c xs (x :: acc)) = _
    rw [hx]
    simp only [Bool.false_eq_true, if_false]
    rw [ih (fun y hy => h y (List.mem_cons_of_mem x hy)) (x :: acc)]
    simp

theorem splitOnCharAux_sep {c : Char} {l1 l2 : List Char}
    (h : ∀ x ∈ l1, (x == c) = false) :
    ∀ acc, splitOnCharAux c (l1 ++ c :: l2) acc =
      (acc.reverse ++ l1) :: splitOnCharAux c l2 [] := by
  induction l1 with
  | nil =>
    intro acc
    show (if c == c then _ else _) = _
    simp [splitOnCharAux]
  | cons x xs ih =>
    intro acc
    have hx := h x (List.mem_cons_self x xs)
    show (if x == c then _ else splitOnCharAux c (xs ++ c :: l2) (x :: acc)) = _
    rw [hx]
    simp only [Bool.false_eq_true, if_false]
    rw [ih (fun y hy => h y (List.mem_cons_of_mem x hy)) (x :: acc)]
    simp

theorem splitWSAux_no_ws {l : List Char} (h : ∀ x ∈ l, x.isWhitespace = false) :
    ∀ acc, acc ≠ [] ∨ l ≠ [] → splitWSAux l acc = [acc.reverse ++ l] := by
  induction l with
  | nil =>
    intro acc hne
    rcases hne with hne | hne
    · show (if acc.isEmpty then _ else _) = _
      rw [if_neg (by simpa [List.isEmpty_iff] using hne)]
      simp
    · exact absurd rfl hne
  | cons x xs ih =>
    intro acc hne
    have hx := h x (List.mem_cons_self x xs)
    show (if x.isWhitespace then _ else splitWSAux xs (x :: acc)) = _
    rw [hx]
    simp only [Bool.false_eq_true, if_false]
    rw [ih (fun y hy => h y (List.mem_cons_of_mem x hy)) (x :: acc) (Or.inl (by simp))]
    simp

theorem splitWSAux_ws_sep {l1 rest : List Char}
    (h : ∀ x ∈ l1, x.isWhitespace = false) :
    ∀ acc, acc ≠ [] ∨ l1 ≠ [] →
      splitWSAux (l1 ++ ' ' :: rest) acc = (acc.reverse ++ l1) :: splitWSAux rest [] := by
  induction l1 with
  | nil =>
    intro acc hne
    rcases hne with hne | hne
    · show (if (' ').isWhitespace then if acc.isEmpty then _ else _ else _) = _
      rw [if_pos (by decide), if_neg (by simpa [List.isEmpty_iff] using hne)]
      simp
    · exact absurd rfl hne
  | cons x xs ih =>
    intro acc hne
    have hx := h x (List.mem_cons_self x xs)
    show (if x.isWhitespace then _ else splitWSAux (xs ++ ' ' :: rest) (x :: acc)) = _
    rw [hx]
    simp only [Bool.false_eq_true, if_false]
    rw [ih (fun y hy => h y (List.mem_cons_of_mem x hy)) (x :: acc) (Or.inl (by simp))]
    simp

theorem dvd_pow_ten_self {d e : ℕ} (hd : d ∣ 10 ^ e) : d ∣ 10 ^ d := by
  induction d using Nat.strong_induction_on with
  | _ d ih =>
    rcases Nat.lt_or_ge d 2 with hlt | hge
    · interval_cases d
      · exact absurd (Nat.zero_dvd.mp hd) (by positivity)
      · exact one_dvd _
    · obtain ⟨p, hp, hpd⟩ := Nat.exists_prime_and_dvd (by omega : d ≠ 1)
      have hp10 : p ∣ 10 := hp.dvd_of_dvd_pow (hpd.trans hd)
      have hdp_dvd : d / p ∣ 10 ^ e := (Nat.div_dvd_of_dvd hpd).trans hd
      have hp2 : 2 ≤ p := hp.two_le
      have hdp_lt : d / p < d := Nat.div_lt_self (by omega) (by omega)
      have ihp := ih (d / p) hdp_lt hdp_dvd
      have hsplit : d = p * (d / p) := (Nat.mul_div_cancel' hpd).symm
      have hdvd10 : d ∣ 10 ^ (d / p + 1) := by
        have hmul : p * (d / p) ∣ 10 * 10 ^ (d / p) := mul_dvd_mul hp10 ihp
        rw [← pow_succ'] at hmul
        conv_lhs => rw [hsplit]
        exact hmul
      exact hdvd10.trans (pow_dvd_pow 10 (by omega))

theorem decExp_spec {d : ℕ} (h : ∃ e, d ∣ 10 ^ e) :
    ∃ k, decExp d = some k ∧ d ∣ 10 ^ k := by
  obtain ⟨e, he⟩ := h
  cases hfind : decExp d with
  | none =>
    exfalso
    unfold decExp at hfind
    have := List.find?_eq_none.mp hfind d (by
      refine List.mem_range.mpr ?_
      omega)
    exact this (by simpa using dvd_pow_ten_self he)
  | some k =>
    refine ⟨k, rfl, ?_⟩
    have := List.find?_some hfind
    simpa using this

theorem pyIntOpt_digits {l : List Char} (hne : l ≠ [])
    (hd : ∀ c ∈ l, c.isDigit = true) :
    pyIntOpt (String.mk l) = some (digitsVal l : ℤ) := by
  cases l with
  | nil => exact absurd rfl hne
  | cons c cs =>
    have hc := hd c (List.mem_cons_self c cs)
    show (if c == '+' then _ else if c == '-' then _ else
      if (c :: cs).all Char.isDigit then some (digitsVal (c :: cs) : ℤ) else none) = _
    rw [beq_plus_false_of_isDigit hc, beq_hyphen_false_of_isDigit hc]
    simp only [Bool.false_eq_true, if_false]
    rw [if_pos (List.all_eq_true.mpr (fun x hx => hd x hx))]

theorem joinWith_space_toList (t : String) (t2 : String) (ts : List String) :
    (joinWith " " (t :: t2 :: ts)).toList =
      t.toList ++ ' ' :: (joinWith " " (t2 :: ts)).toList := by
  show (t ++ " " ++ joinWith " " (t2 :: ts)).toList = _
  show (t.toList ++ " ".toList) ++ (joinWith " " (t2 :: ts)).toList = _
  simp

theorem splitWS_joinWith : ∀ toks : List String,
    (∀ tok ∈ toks, tok.toList ≠ [] ∧ ∀ c ∈ tok.toList, c.isWhitespace = false) →
    splitWS (joinWith " " toks) = toks := by
  intro toks
  induction toks with
  | nil => intro h; rfl
  | cons t rest ih =>
    intro h
    obtain ⟨htne, htws⟩ := h t (List.mem_cons_self t rest)
    cases rest with
    | nil =>
      show (splitWSAux t.toList []).map String.mk = [t]
      rw [splitWSAux_no_ws htws [] (Or.inr htne)]
      simp
    | cons t2 ts =>
      unfold splitWS
      rw [joinWith_space_toList,
        splitWSAux_ws_sep htws [] (Or.inr htne)]
      simp only [List.reverse_nil, List.nil_append, List.map_cons]
      have := ih (fun tok hm => h tok (List.mem_cons_of_mem t hm))
      unfold splitWS at this
      rw [this]
      simp

theorem pyFloatOpt_of_digit_head (s : String) (c : Char) (cs : List Char)
    (hs : s.toList = c :: cs) (hc : c.isDigit = true) :
    pyFloatOpt s = pyFloatCore (c :: cs) := by
  unfold pyFloatOpt
  rw [hs]
  show (if c == '+' then _ else if c == '-' then _ else pyFloatCore (c :: cs)) = _
  rw [beq_plus_false_of_isDigit hc, beq_hyphen_false_of_isDigit hc]
  simp

theorem isEmpty_false_of_ne_nil {α : Type} {l : List α} (h : l ≠ []) :
    l.isEmpty = false := by
  cases l with
  | nil => exact absurd rfl h
  | cons x xs => rfl

theorem pyFloatCore_int_only {a : List Char} (ha : a ≠ [])
    (hda : ∀ c ∈ a, c.isDigit = true) :
    pyFloatCore a = some (digitsVal a : ℚ) := by
  unfold pyFloatCore
  rw [splitOnCharAux_no_sep (fun x hx => beq_dot_false_of_isDigit (hda x hx)) []]
  show (if !a.isEmpty && a.all Char.isDigit then some (digitsVal a : ℚ) else none) = _
  rw [isEmpty_false_of_ne_nil ha, List.all_eq_true.mpr (fun x hx => hda x hx)]
  rfl

theorem pyFloatCore_int_frac {a b : List Char} (ha : a ≠ [])
    (hda : ∀ c ∈ a, c.isDigit = true) (hb : b ≠ [])
    (hdb : ∀ c ∈ b, c.isDigit = true) :
    pyFloatCore (a ++ '.' :: b) =
      some ((digitsVal a : ℚ) + (digitsVal b : ℚ) / (10 : ℚ) ^ b.length) := by
  unfold pyFloatCore
  rw [splitOnCharAux_sep (fun x hx => beq_dot_false_of_isDigit (hda x hx)) [],
    splitOnCharAux_no_sep (fun x hx => beq_dot_false_of_isDigit (hdb x hx)) []]
  show (if !(a.isEmpty && b.isEmpty) && a.all Char.isDigit && b.all Char.isDigit
    then some ((digitsVal a : ℚ) + (digitsVal b : ℚ) / (10 : ℚ) ^ b.length)
    else none) = _
  rw [isEmpty_false_of_ne_nil ha, isEmpty_false_of_ne_nil hb,
    List.all_eq_true.mpr (fun x hx => hda x hx),
    List.all_eq_true.mpr (fun x hx => hdb x hx)]
  rfl

/-- `fmtDec` round-trips through `pyFloatOpt` on every non-negative rational
whose denominator divides a power of ten (every parsed decimal literal), and
its output is a non-empty string of digits and dots. -/
theorem pyFloatOpt_fmtDec {q : ℚ} (h0 : 0 ≤ q)
    (hden : ∃ e, (q.den : ℕ) ∣ 10 ^ e) :
    pyFloatOpt (fmtDec q) = some q ∧
    (fmtDec q).toList ≠ [] ∧
    ∀ c ∈ (fmtDec q).toList, c.isDigit = true ∨ c = '.' := by
  obtain ⟨k, hk, hdvd⟩ := decExp_spec hden
  have hdvdZ : (q.den : ℤ) ∣ q.num * (10 : ℤ) ^ k := by
    refine Dvd.dvd.mul_left ?_ q.num
    have := Int.natCast_dvd_natCast.mpr hdvd
    push_cast at this
    exact this
  obtain ⟨c0, hc0⟩ := hdvdZ
  have hdenZ : (q.den : ℤ) ≠ 0 := by
    exact_mod_cast q.den_ne_zero
  have hmz : Int.tdiv (q.num * (10 : ℤ) ^ k) (q.den : ℤ) = c0 := by
    rw [hc0]
    exact Int.mul_tdiv_cancel_left c0 hdenZ
  have hc0nn : 0 ≤ c0 := by
    have hnumnn : 0 ≤ q.num := Rat.num_nonneg.mpr h0
    have hMnn : 0 ≤ q.num * (10 : ℤ) ^ k := by positivity
    rw [hc0] at hMnn
    have hdpos : (0 : ℤ) < (q.den : ℤ) := by exact_mod_cast q.pos
    by_contra hneg
    push_neg at hneg
    have := mul_neg_of_pos_of_neg hdpos hneg
    linarith
  set m : ℕ := c0.toNat with hmdef
  have hc0m : c0 = (m : ℤ) := (Int.toNat_of_nonneg hc0nn).symm
  have hqm : (m : ℚ) = q * (10 : ℚ) ^ k := by
    have h1 : ((q.num : ℚ)) * (10 : ℚ) ^ k = (q.den : ℚ) * ((c0 : ℤ) : ℚ) := by
      exact_mod_cast congrArg (fun z : ℤ => (z : ℚ)) hc0
    rw [hc0m] at h1
    push_cast at h1
    have hden0 : ((q.den : ℚ)) ≠ 0 := by exact_mod_cast q.den_ne_zero
    have hq : q = (q.num : ℚ) / (q.den : ℚ) := (Rat.num_div_den q).symm
    rw [hq]
    field_simp
    linarith [h1]
  by_cases hk0 : k = 0
  · subst hk0
    have hfmt : fmtDec q = natToString m ++ ".0" := by
      unfold fmtDec
      rw [hk]
      show natToString ((Int.tdiv (q.num * (10 : ℤ) ^ 0) (q.den : ℤ)).toNat) ++ ".0" = _
      rw [hmz, ← hmdef]
    have htl : (fmtDec q).toList = (natToString m).toList ++ ['.', '0'] := by
      rw [hfmt]
      rfl
    rcases hA : (natToString m).toList with _ | ⟨c, cs⟩
    · exact absurd hA (natToString_ne_nil m)
    have hcdig : c.isDigit = true :=
      natToString_all_digits m c (by rw [hA]; exact List.mem_cons_self c cs)
    have hcsdig : ∀ x ∈ c :: cs, x.isDigit = true := by
      rw [← hA]
      exact natToString_all_digits m
    refine ⟨?_, ?_, ?_⟩
    · rw [pyFloatOpt_of_digit_head (fmtDec q) c (cs ++ ['.', '0'])
        (by rw [htl, hA]; simp) hcdig]
      have hshape : c :: (cs ++ ['.', '0']) = (c :: cs) ++ '.' :: ['0'] := by simp
      rw [hshape, pyFloatCore_int_frac (by simp)
        hcsdig (by simp) (by intro x hx; rcases List.mem_singleton.mp hx with rfl; rfl)]
      rw [← hA, digitsVal_natToString]
      rw [show digitsVal ['0'] = 0 from rfl]
      rw [hqm]
      norm_num
    · rw [htl, hA]
      simp
    · intro ch hch
      rw [htl] at hch
      rcases List.mem_append.mp hch with h | h
      · exact Or.inl (natToString_all_digits m ch h)
      · rcases List.mem_cons.mp h with rfl | h2
        · exact Or.inr rfl
        · rcases List.mem_singleton.mp h2 with rfl
          exact Or.inl rfl
  · have hkpos : 0 < k := Nat.pos_of_ne_zero hk0
    have hpowpos : 0 < 10 ^ k := by positivity
    have hfmt : fmtDec q =
        natToString (m / 10 ^ k) ++ "." ++
          String.mk (List.replicate
            (k - (natToString (m % 10 ^ k)).length) '0') ++
          natToString (m % 10 ^ k) := by
      unfold fmtDec
      rw [hk]
      show (if k = 0 then _ else _) = _
      rw [if_neg hk0]
      show natToString ((Int.tdiv (q.num * (10 : ℤ) ^ k) (q.den : ℤ)).toNat / 10 ^ k)
          ++ "." ++
          String.mk (List.replicate (k - (natToString
            ((Int.tdiv (q.num * (10 : ℤ) ^ k) (q.den : ℤ)).toNat % 10 ^ k)).length) '0')
          ++ natToString
            ((Int.tdiv (q.num * (10 : ℤ) ^ k) (q.den : ℤ)).toNat % 10 ^ k) = _
      rw [hmz, ← hmdef]
    have htl : (fmtDec q).toList =
        (natToString (m / 10 ^ k)).toList ++ '.' ::
          (List.replicate (k - (natToString (m % 10 ^ k)).length) '0' ++
            (natToString (m % 10 ^ k)).toList) := by
      rw [hfmt]
      show (((natToString (m / 10 ^ k)).toList ++ ['.']) ++
        List.replicate (k - (natToString (m % 10 ^ k)).length) '0') ++
          (natToString (m % 10 ^ k)).toList = _
      simp
    rcases hA : (natToString (m / 10 ^ k)).toList with _ | ⟨c, cs⟩
    · exact absurd hA (natToString_ne_nil _)
    have hcdig : c.isDigit = true :=
      natToString_all_digits _ c (by rw [hA]; exact List.mem_cons_self c cs)
    have hcsdig : ∀ x ∈ c :: cs, x.isDigit = true := by
      rw [← hA]
      exact natToString_all_digits _
    have hBdig : ∀ x ∈ List.replicate (k - (natToString (m % 10 ^ k)).length) '0' ++
        (natToString (m % 10 ^ k)).toList, x.isDigit = true := by
      intro x hx
      rcases List.mem_append.mp hx with h | h
      · rw [List.eq_of_mem_replicate h]
        rfl
      · exact natToString_all_digits _ x h
    have hBne : List.replicate (k - (natToString (m % 10 ^ k)).length) '0' ++
        (natToString (m % 10 ^ k)).toList ≠ [] := by
      intro hcontra
      exact natToString_ne_nil (m % 10 ^ k) (List.append_eq_nil.mp hcontra).2
    have hlenle : (natToString (m % 10 ^ k)).toList.length ≤ k :=
      natToString_length_le hkpos (Nat.mod_lt m hpowpos)
    have hstrlen : (natToString (m % 10 ^ k)).length =
        (natToString (m % 10 ^ k)).toList.length := rfl
    have hBlen : (List.replicate (k - (natToString (m % 10 ^ k)).length) '0' ++
        (natToString (m % 10 ^ k)).toList).length = k := by
      rw [List.length_append, List.length_replicate, hstrlen]
      omega
    refine ⟨?_, ?_, ?_⟩
    · rw [pyFloatOpt_of_digit_head (fmtDec q) c
        (cs ++ '.' :: (List.replicate (k - (natToString (m % 10 ^ k)).length) '0' ++
          (natToString (m % 10 ^ k)).toList))
        (by rw [htl, hA]; simp) hcdig]
      have hshape : c :: (cs ++ '.' ::
          (List.replicate (k - (natToString (m % 10 ^ k)).length) '0' ++
            (natToString (m % 10 ^ k)).toList)) =
          (c :: cs) ++ '.' ::
            (List.replicate (k - (natToString (m % 10 ^ k)).length) '0' ++
              (natToString (m % 10 ^ k)).toList) := by simp
      rw [hshape, pyFloatCore_int_frac (by simp) hcsdig hBne hBdig]
      rw [← hA, digitsVal_natToString, hBlen, digitsVal_replicate_zero,
        digitsVal_natToString]
      have hsplitm : ((m / 10 ^ k : ℕ) : ℚ) * (10 : ℚ) ^ k + ((m % 10 ^ k : ℕ) : ℚ)
          = (m : ℚ) := by
        exact_mod_cast Nat.div_add_mod' m (10 ^ k)
      have hpow : ((10 : ℚ)) ^ k ≠ 0 := by positivity
      have hval : ((m / 10 ^ k : ℕ) : ℚ) + ((m % 10 ^ k : ℕ) : ℚ) / (10 : ℚ) ^ k
          = q := by
        have h2 : (((m / 10 ^ k : ℕ) : ℚ) + ((m % 10 ^ k : ℕ) : ℚ) / (10 : ℚ) ^ k)
            * (10 : ℚ) ^ k = q * (10 : ℚ) ^ k := by
          rw [add_mul, div_mul_cancel₀ _ hpow, hsplitm, hqm]
        exact mul_right_cancel₀ hpow h2
      rw [hval]
    · rw [htl, hA]
      simp
    · intro ch hch
      rw [htl] at hch
      rcases List.mem_append.mp hch with h | h
      · exact Or.inl (natToString_all_digits _ ch h)
      · rcases List.mem_cons.mp h with rfl | h2
        · exact Or.inr rfl
        · exact Or.inl (hBdig ch h2)

theorem pyIntOpt_intToString {i : ℤ} (h : 0 ≤ i) :
    pyIntOpt (intToString i) = some i ∧
    (intToString i).toList ≠ [] ∧
    ∀ c ∈ (intToString i).toList, c.isDigit = true := by
  have hfmt : intToString i = natToString i.toNat := by
    unfold intToString
    rw [if_neg (not_lt.mpr h)]
  rw [hfmt]
  refine ⟨?_, natToString_ne_nil _, natToString_all_digits _⟩
  have := pyIntOpt_digits (natToString_ne_nil i.toNat) (natToString_all_digits i.toNat)
  have hmk : String.mk (natToString i.toNat).toList = natToString i.toNat := rfl
  rw [hmk] at this
  rw [this, digitsVal_natToString]
  rw [Int.toNat_of_nonneg h]

theorem dropWhile_head_not {α : Type} {p : α → Bool} :
    ∀ {l : List α} {x : α} {xs : List α}, l.dropWhile p = x :: xs → p x = false := by
  intro l
  induction l with
  | nil => intro x xs h; cases h
  | cons y ys ih =>
    intro x xs h
    rw [List.dropWhile_cons] at h
    split at h
    · exact ih h
    · next hp =>
      rcases List.cons.inj h with ⟨rfl, -⟩
      exact Bool.eq_false_iff.mpr hp

theorem den_dvd_of_eq_natCast_div {v : ℚ} {a b : ℕ} (hb : b ≠ 0)
    (hv : v = (a : ℚ) / (b : ℚ)) : (v.den : ℕ) ∣ b := by
  have h1 : v = Rat.divInt (a : ℤ) (b : ℤ) := by
    rw [Rat.divInt_eq_div]
    push_cast
    exact hv
  have h2 : ((v.den : ℤ)) ∣ (b : ℤ) := by
    rw [h1]
    exact Rat.den_dvd (a : ℤ) (b : ℤ)
  exact_mod_cast h2

theorem pyFloatOpt_of_wfDec {f : String} (h : wfDec f = true) :
    ∃ v : ℚ, pyFloatOpt f = some v ∧ 0 ≤ v ∧ ∃ e, (v.den : ℕ) ∣ 10 ^ e := by
  unfold wfDec at h
  have hsplit := List.takeWhile_append_dropWhile (fun c => !(c == '.')) f.toList
  cases hdrop : f.toList.dropWhile (fun c => !(c == '.')) with
  | nil =>
    rw [hdrop] at h hsplit
    simp only [Bool.and_eq_true, Bool.not_eq_true'] at h
    obtain ⟨hne, hdig⟩ := h
    have hdig' : ∀ c ∈ f.toList.takeWhile (fun c => !(c == '.')), c.isDigit = true :=
      fun c hc => List.all_eq_true.mp hdig c hc
    have hfl : f.toList = f.toList.takeWhile (fun c => !(c == '.')) := by
      conv_lhs => rw [← hsplit]
      simp
    rcases hA : f.toList.takeWhile (fun c => !(c == '.')) with _ | ⟨c, cs⟩
    · rw [hA] at hne; simp at hne
    refine ⟨(digitsVal (c :: cs) : ℚ), ?_, by positivity, 0, ?_⟩
    · rw [pyFloatOpt_of_digit_head f c cs (by rw [hfl, hA])
        (hdig' c (by rw [hA]; exact List.mem_cons_self c cs))]
      exact pyFloatCore_int_only (by simp) (by rw [← hA]; exact hdig')
    · have : ((digitsVal (c :: cs) : ℚ)).den = 1 := Rat.den_natCast _
      rw [this]
      simp
  | cons dot frac =>
    rw [hdrop] at h hsplit
    simp only [Bool.and_eq_true, Bool.not_eq_true'] at h
    obtain ⟨⟨⟨hne, hfne⟩, hdig⟩, hfdig⟩ := h
    have hdig' : ∀ c ∈ f.toList.takeWhile (fun c => !(c == '.')), c.isDigit = true :=
      fun c hc => List.all_eq_true.mp hdig c hc
    have hfdig' : ∀ c ∈ frac, c.isDigit = true :=
      fun c hc => List.all_eq_true.mp hfdig c hc
    have hdot : dot = '.' := by
      have := dropWhile_head_not hdrop
      simp only [Bool.not_eq_false'] at this
      exact eq_of_beq this
    subst hdot
    have hfl : f.toList = f.toList.takeWhile (fun c => !(c == '.')) ++ '.' :: frac :=
      hsplit.symm
    rcases hA : f.toList.takeWhile (fun c => !(c == '.')) with _ | ⟨c, cs⟩
    · rw [hA] at hne; simp at hne
    have hfne' : frac ≠ [] := by
      intro hcontra
      rw [hcontra] at hfne
      simp at hfne
    refine ⟨(digitsVal (c :: cs) : ℚ) + (digitsVal frac : ℚ) / (10 : ℚ) ^ frac.length,
      ?_, by positivity, frac.length, ?_⟩
    · rw [pyFloatOpt_of_digit_head f c (cs ++ '.' :: frac)
        (by rw [hfl, hA]; simp) (hdig' c (by rw [hA]; exact List.mem_cons_self c cs))]
      have hshape : c :: (cs ++ '.' :: frac) = (c :: cs) ++ '.' :: frac := by simp
      rw [hshape]
      exact pyFloatCore_int_frac (by simp) (by rw [← hA]; exact hdig') hfne' hfdig'
    · refine den_dvd_of_eq_natCast_div (a := digitsVal (c :: cs) * 10 ^ frac.length +
        digitsVal frac) (by positivity) ?_
      push_cast
      rw [add_div]
      have hpow : ((10 : ℚ)) ^ frac.length ≠ 0 := by positivity
      rw [mul_div_cancel_right₀ _ hpow]

theorem filter_split_alpha_digit {p d : List Char} (hp : ∀ c ∈ p, c.isAlpha = true)
    (hd : ∀ c ∈ d, c.isDigit = true) :
    (p ++ d).filter (fun c => !c.isDigit) = p ∧ (p ++ d).filter Char.isDigit = d := by
  constructor
  · rw [List.filter_append,
      List.filter_eq_self.mpr (fun c hc => by
        rw [isDigit_false_of_isAlpha (hp c hc)]; rfl),
      List.filter_eq_nil.mpr (fun c hc => by
        rw [hd c hc]; simp)]
    simp
  · rw [List.filter_append,
      List.filter_eq_nil.mpr (fun c hc => by
        rw [isDigit_false_of_isAlpha (hp c hc)]; simp),
      List.filter_eq_self.mpr (fun c hc => hd c hc)]
    simp

theorem parseFields_of_wf {f0 f1 f2 f3 : String} {inst : ℤ}
    (h0 : wfField0 f0 = true) (h1 : wfDec f1 = true) (h2 : wfDec f2 = true)
    (h3 : wfInt f3 = true) (hi : 0 ≤ inst) :
    ∃ n : RawNote, parseFields f0 f1 f2 f3 inst = .ok n ∧ GoodNote n ∧
      n.instrument = inst := by
  unfold wfField0 at h0
  simp only [Bool.and_eq_true, Bool.not_eq_true', List.all_eq_true] at h0
  obtain ⟨⟨⟨hpne, hdne⟩, hpalpha⟩, hddig⟩ := h0
  have hsplit0 := List.takeWhile_append_dropWhile (fun c => !c.isDigit) f0.toList
  have hpalpha' : ∀ c ∈ f0.toList.takeWhile (fun c => !c.isDigit), c.isAlpha = true :=
    hpalpha
  have hddig' : ∀ c ∈ f0.toList.dropWhile (fun c => !c.isDigit), c.isDigit = true :=
    hddig
  obtain ⟨hfilp, hfild⟩ := filter_split_alpha_digit hpalpha' hddig'
  rw [hsplit0] at hfilp hfild
  obtain ⟨v1, hv1, hv1nn, hv1den⟩ := pyFloatOpt_of_wfDec h1
  obtain ⟨v2, hv2, hv2nn, hv2den⟩ := pyFloatOpt_of_wfDec h2
  unfold wfInt at h3
  simp only [Bool.and_eq_true, Bool.not_eq_true', List.all_eq_true] at h3
  obtain ⟨h3ne, h3dig⟩ := h3
  have hvol : pyIntOpt f3 = some (digitsVal f3.toList : ℤ) := by
    have := pyIntOpt_digits (by simpa [List.isEmpty_iff] using h3ne)
      (fun c hc => h3dig c hc)
    exact this
  have hoct : pyIntOpt (String.mk (f0.toList.filter Char.isDigit)) =
      some (digitsVal (f0.toList.dropWhile (fun c => !c.isDigit)) : ℤ) := by
    rw [hfild]
    exact pyIntOpt_digits (by simpa [List.isEmpty_iff] using hdne)
      (fun c hc => hddig' c hc)
  refine ⟨⟨String.mk (f0.toList.filter (fun c => !c.isDigit)),
      (digitsVal (f0.toList.dropWhile (fun c => !c.isDigit)) : ℤ),
      v1, v2, (digitsVal f3.toList : ℤ), inst⟩, ?_, ?_, rfl⟩
  · unfold parseFields
    simp only [hoct, hv1, hv2, hvol]
  · refine ⟨?_, ?_, by positivity, by positivity, hi, hv1nn, hv1den, hv2nn, hv2den⟩
    · show f0.toList.filter (fun c => !c.isDigit) ≠ []
      rw [hfilp]
      simpa [List.isEmpty_iff] using hpne
    · show ∀ c ∈ (f0.toList.filter (fun c => !c.isDigit)), c.isAlpha = true
      rw [hfilp]
      exact hpalpha'

theorem tokenDenote_of_wf {tok : String} (h : wellFormedToken5 tok = true) :
    ∃ n, tokenDenote tok = some n ∧ GoodNote n := by
  unfold wellFormedToken5 at h
  rcases hsp : splitOnChar '-' tok with _ | ⟨f1, _ | ⟨f2, _ | ⟨f3, _ | ⟨f4, _ |
    ⟨f5, _ | rest5⟩⟩⟩⟩⟩ <;> rw [hsp] at h
  case nil => exact Bool.noConfusion h
  case cons.nil => exact Bool.noConfusion h
  case cons.cons.nil => exact Bool.noConfusion h
  case cons.cons.cons.nil => exact Bool.noConfusion h
  case cons.cons.cons.cons.nil => exact Bool.noConfusion h
  case cons.cons.cons.cons.cons.cons => exact Bool.noConfusion h
  case cons.cons.cons.cons.cons.nil =>
  replace h : (wfField0 f1 && wfDec f2 && wfDec f3 && wfInt f4 && wfInt f5) = true := h
  simp only [Bool.and_eq_true] at h
  obtain ⟨⟨⟨⟨h0, h1⟩, h2⟩, h3⟩, h4⟩ := h
  unfold wfInt at h4
  simp only [Bool.and_eq_true, Bool.not_eq_true', List.all_eq_true] at h4
  obtain ⟨h4ne, h4dig⟩ := h4
  have hinst : pyIntOpt f5 = some (digitsVal f5.toList : ℤ) :=
    pyIntOpt_digits (by simpa [List.isEmpty_iff] using h4ne) (fun c hc => h4dig c hc)
  obtain ⟨n, hpf, hgood, -⟩ := parseFields_of_wf h0 h1 h2 h3
    (by positivity : (0 : ℤ) ≤ (digitsVal f5.toList : ℤ))
  refine ⟨n, ?_, hgood⟩
  unfold tokenDenote
  rw [hsp]
  show (match pyIntOpt f5 with
    | none => none
    | some i => (parseFields f1 f2 f3 f4 i).toOption) = some n
  rw [hinst]
  show (parseFields f1 f2 f3 f4 (digitsVal f5.toList : ℤ)).toOption = some n
  rw [hpf]
  rfl

theorem tokenFieldCountOk_of_wf {tok : String} (h : wellFormedToken5 tok = true) :
    tokenFieldCountOk tok = true := by
  unfold wellFormedToken5 at h
  unfold tokenFieldCountOk
  rcases hsp : splitOnChar '-' tok with _ | ⟨f1, _ | ⟨f2, _ | ⟨f3, _ | ⟨f4, _ |
    ⟨f5, _ | rest5⟩⟩⟩⟩⟩ <;> rw [hsp] at h <;> first
  | exact Bool.noConfusion h
  | rfl

theorem filterMap_all_some {α β : Type} {f : α → Option β} :
    ∀ {l : List α}, (∀ x ∈ l, (f x).isSome = true) →
      (l.filterMap f).length = l.length ∧
      ∀ i x, l.get? i = some x → ∃ y, f x = some y ∧ (l.filterMap f).get? i = some y := by
  intro l
  induction l with
  | nil => intro h; exact ⟨rfl, fun i x hx => by cases hx⟩
  | cons a as ih =>
    intro h
    obtain ⟨y, hy⟩ := Option.isSome_iff_exists.mp (h a (List.mem_cons_self a as))
    obtain ⟨ihlen, ihpt⟩ := ih (fun x hx => h x (List.mem_cons_of_mem a hx))
    have hfm : (a :: as).filterMap f = y :: as.filterMap f := by
      rw [List.filterMap_cons, hy]
    constructor
    · rw [hfm]
      simp [ihlen]
    · intro i x hx
      cases i with
      | zero =>
        rw [List.get?_cons_zero] at hx
        rcases Option.some.inj hx with rfl
        exact ⟨y, hy, by rw [hfm]; rfl⟩
      | succ j =>
        rw [List.get?_cons_succ] at hx
        obtain ⟨z, hz1, hz2⟩ := ihpt j x hx
        exact ⟨z, hz1, by rw [hfm]; simpa using hz2⟩

theorem parseFields_eq {f0 f1 f2 f3 : String} {inst o : ℤ} {st du : ℚ} {vo : ℤ}
    (h1 : pyIntOpt (String.mk (f0.toList.filter Char.isDigit)) = some o)
    (h2 : pyFloatOpt f1 = some st) (h3 : pyFloatOpt f2 = some du)
    (h4 : pyIntOpt f3 = some vo) :
    parseFields f0 f1 f2 f3 inst =
      .ok ⟨String.mk (f0.toList.filter (fun c => !c.isDigit)), o, st, du, vo, inst⟩ := by
  unfold parseFields
  simp only [h1, h2, h3, h4]

/-- A note with the well-formedness properties serializes to a token that
parses back to the very same note; the token is non-empty and has no
whitespace. -/
theorem tokenDenote_formatted {n : RawNote} (h : GoodNote n) :
    tokenDenote (formatted_note n) = some n ∧
    (formatted_note n).toList ≠ [] ∧
    ∀ c ∈ (formatted_note n).toList, c.isWhitespace = false := by
  obtain ⟨hpne, hpalpha, hoct, hvol, hinst, hstnn, hstden, hdunn, hduden⟩ := h
  obtain ⟨hoct1, hoct2, hoct3⟩ := pyIntOpt_intToString hoct
  obtain ⟨hvol1, hvol2, hvol3⟩ := pyIntOpt_intToString hvol
  obtain ⟨hinst1, hinst2, hinst3⟩ := pyIntOpt_intToString hinst
  obtain ⟨hst1, hst2, hst3⟩ := pyFloatOpt_fmtDec hstnn hstden
  obtain ⟨hdu1, hdu2, hdu3⟩ := pyFloatOpt_fmtDec hdunn hduden
  have htl : (formatted_note n).toList =
      (n.pitch.toList ++ (intToString n.octave).toList) ++ '-' ::
        ((fmtDec n.start).toList ++ '-' ::
          ((fmtDec n.duration).toList ++ '-' ::
            ((intToString n.volume).toList ++ '-' ::
              (intToString n.instrument).toList))) := by
    show (((((((((n.pitch.toList ++ (intToString n.octave).toList) ++ ['-']) ++
      (fmtDec n.start).toList) ++ ['-']) ++ (fmtDec n.duration).toList) ++ ['-']) ++
      (intToString n.volume).toList) ++ ['-']) ++ (intToString n.instrument).toList) = _
    simp
  have hf0nd : ∀ x ∈ n.pitch.toList ++ (intToString n.octave).toList,
      (x == '-') = false := by
    intro x hx
    rcases List.mem_append.mp hx with h | h
    · exact beq_false_of_isAlpha_of_ne (hpalpha x h) (by decide)
    · exact beq_hyphen_false_of_isDigit (hoct3 x h)
  have hdecnd : ∀ (s : String), (∀ c ∈ s.toList, c.isDigit = true ∨ c = '.') →
      ∀ x ∈ s.toList, (x == '-') = false := by
    intro s hs x hx
    rcases hs x hx with h | rfl
    · exact beq_hyphen_false_of_isDigit h
    · decide
  have hintnd : ∀ (s : String), (∀ c ∈ s.toList, c.isDigit = true) →
      ∀ x ∈ s.toList, (x == '-') = false :=
    fun s hs x hx => beq_hyphen_false_of_isDigit (hs x hx)
  have hsplit : splitOnChar '-' (formatted_note n) =
      [String.mk (n.pitch.toList ++ (intToString n.octave).toList),
        String.mk (fmtDec n.start).toList, String.mk (fmtDec n.duration).toList,
        String.mk (intToString n.volume).toList,
        String.mk (intToString n.instrument).toList] := by
    unfold splitOnChar
    rw [htl, splitOnCharAux_sep hf0nd [],
      splitOnCharAux_sep (hdecnd (fmtDec n.start) hst3) [],
      splitOnCharAux_sep (hdecnd (fmtDec n.duration) hdu3) [],
      splitOnCharAux_sep (hintnd (intToString n.volume) hvol3) [],
      splitOnCharAux_no_sep (hintnd (intToString n.instrument) hinst3) []]
    simp
  refine ⟨?_, ?_, ?_⟩
  · unfold tokenDenote
    rw [hsplit]
    show (match pyIntOpt (String.mk (intToString n.instrument).toList) with
      | none => none
      | some i => (parseFields (String.mk (n.pitch.toList ++ (intToString n.octave).toList))
          (String.mk (fmtDec n.start).toList) (String.mk (fmtDec n.duration).toList)
          (String.mk (intToString n.volume).toList) i).toOption) = some n
    have hmketa : ∀ s : String, String.mk s.toList = s := fun s => rfl
    rw [hmketa, hinst1]
    show (parseFields (String.mk (n.pitch.toList ++ (intToString n.octave).toList))
        (String.mk (fmtDec n.start).toList) (String.mk (fmtDec n.duration).toList)
        (String.mk (intToString n.volume).toList) n.instrument).toOption = some n
    obtain ⟨hfilp, hfild⟩ := filter_split_alpha_digit hpalpha hoct3
    have h1 : pyIntOpt (String.mk ((String.mk (n.pitch.toList ++
        (intToString n.octave).toList)).toList.filter Char.isDigit)) =
          some n.octave := by
      show pyIntOpt (String.mk ((n.pitch.toList ++
        (intToString n.octave).toList).filter Char.isDigit)) = some n.octave
      rw [hfild]
      exact hoct1
    have h2 : pyFloatOpt (String.mk (fmtDec n.start).toList) = some n.start := hst1
    have h3 : pyFloatOpt (String.mk (fmtDec n.duration).toList) = some n.duration :=
      hdu1
    have h4 : pyIntOpt (String.mk (intToString n.volume).toList) = some n.volume :=
      hvol1
    rw [parseFields_eq h1 h2 h3 h4]
    have hpitch : String.mk ((String.mk (n.pitch.toList ++
        (intToString n.octave).toList)).toList.filter (fun c => !c.isDigit)) =
          n.pitch := by
      show String.mk ((n.pitch.toList ++
        (intToString n.octave).toList).filter (fun c => !c.isDigit)) = n.pitch
      rw [hfilp]
      rfl
    rw [show (Except.ok (⟨String.mk ((String.mk (n.pitch.toList ++
        (intToString n.octave).toList)).toList.filter (fun c => !c.isDigit)),
        n.octave, n.start, n.duration, n.volume, n.instrument⟩ : RawNote)
          : Except String RawNote).toOption
        = some (⟨String.mk ((String.mk (n.pitch.toList ++
            (intToString n.octave).toList)).toList.filter (fun c => !c.isDigit)),
            n.octave, n.start, n.duration, n.volume, n.instrument⟩ : RawNote)
      from rfl]
    rw [hpitch]
  · rw [htl]
    simp
  · intro c hc
    rw [htl] at hc
    simp only [List.mem_append, List.mem_cons] at hc
    rcases hc with (h | h) | rfl | h
    · exact isWhitespace_false_of_isAlpha (hpalpha c h)
    · exact isWhitespace_false_of_isDigit (hoct3 c h)
    · rfl
    · rcases h with h | rfl | h
      · rcases hst3 c h with hd | rfl
        · exact isWhitespace_false_of_isDigit hd
        · rfl
      · rfl
      · rcases h with h | rfl | h
        · rcases hdu3 c h with hd | rfl
          · exact isWhitespace_false_of_isDigit hd
          · rfl
        · rfl
        · rcases h with h | rfl | h
          · exact isWhitespace_false_of_isDigit (hvol3 c h)
          · rfl
          · exact isWhitespace_false_of_isDigit (hinst3 c h)

theorem insertByStart_append {x : RawNote} {acc : List RawNote}
    (h : ∀ m ∈ acc, m.start ≤ x.start) : insertByStart x acc = acc ++ [x] := by
  induction acc with
  | nil => rfl
  | cons m ms ih =>
    show (if x.start < m.start then _ else m :: insertByStart x ms) = _
    rw [if_neg (not_lt.mpr (h m (List.mem_cons_self m ms))),
      ih (fun y hy => h y (List.mem_cons_of_mem m hy))]
    rfl

theorem foldl_insert_sorted :
    ∀ (l acc : List RawNote),
      (∀ m ∈ acc, ∀ x ∈ l, m.start ≤ x.start) →
      List.Pairwise (fun a b => a.start ≤ b.start) l →
      List.foldl (fun acc n => insertByStart n acc) acc l = acc ++ l := by
  intro l
  induction l with
  | nil => intro acc _ _; simp
  | cons x xs ih =>
    intro acc hcross hpw
    show List.foldl _ (insertByStart x acc) xs = acc ++ x :: xs
    rw [insertByStart_append (fun m hm => hcross m hm x (List.mem_cons_self x xs))]
    rw [ih (acc ++ [x]) ?_ (List.pairwise_cons.mp hpw).2]
    · simp
    · intro m hm y hy
      rcases List.mem_append.mp hm with h | h
      · exact hcross m h y (List.mem_cons_of_mem x hy)
      · rcases List.mem_singleton.mp h with rfl
        exact (List.pairwise_cons.mp hpw).1 y hy

theorem sortByStart_sorted_id {l : List RawNote}
    (h : List.Pairwise (fun a b => a.start ≤ b.start) l) : sortByStart l = l := by
  unfold sortByStart
  rw [foldl_insert_sorted l [] (by simp) h]
  simp

/-! ## C5: parse/serialize round-trip -/

/-- C5 (amended): parsing a non-empty well-formed track string whose notes are
already listed in nondecreasing start-time order, and re-serializing via
`save_composition` (which sorts by start time, here a no-op), yields a string
that is token-for-token equivalent to the input: same token count and the
i-th output token denotes exactly the note the i-th input token denotes.
(For input not sorted by start time the serializer reorders the tokens, so the
positional equivalence fails; see the counterexample.) -/
theorem parse_serialize_roundtrip (s : String)
    (hne : splitWS s ≠ [])
    (hwf : ∀ tok ∈ splitWS s, wellFormedToken5 tok = true)
    (hsorted : List.Pairwise (fun a b => a.start ≤ b.start)
      ((splitWS s).filterMap tokenDenote)) :
    ∃ notes warns out,
      parse_music_data s = .ok (notes, warns) ∧ warns = [] ∧
      save_composition notes = some out ∧
      (splitWS out).length = (splitWS s).length ∧
      ∀ i tin tout, (splitWS s).get? i = some tin → (splitWS out).get? i = some tout →
        tokenEquiv tout tin := by
  have hsome : ∀ tok ∈ splitWS s, (tokenDenote tok).isSome = true := by
    intro tok hm
    obtain ⟨n, hd, -⟩ := tokenDenote_of_wf (hwf tok hm)
    rw [hd]
    rfl
  have hparse := parse_music_data_of_tokens_ok s (fun tok hm _ => hsome tok hm)
  have hnowarn : (splitWS s).filter (fun tok => !tokenFieldCountOk tok) = [] := by
    rw [List.filter_eq_nil]
    intro tok hm
    rw [tokenFieldCountOk_of_wf (hwf tok hm)]
    simp
  rw [hnowarn] at hparse
  obtain ⟨hfmlen, hfmpt⟩ := filterMap_all_some hsome
  have hgoodmem : ∀ n ∈ (splitWS s).filterMap tokenDenote, GoodNote n := by
    intro n hn
    obtain ⟨tok, htok, hden⟩ := List.mem_filterMap.mp hn
    obtain ⟨n', hden', hgood⟩ := tokenDenote_of_wf (hwf tok htok)
    rw [hden'] at hden
    rcases Option.some.inj hden with rfl
    exact hgood
  have hnotes_ne : (splitWS s).filterMap tokenDenote ≠ [] := by
    intro hcontra
    apply hne
    have := hfmlen
    rw [hcontra] at this
    exact List.length_eq_zero.mp this.symm
  have hsort := sortByStart_sorted_id hsorted
  have hsave : save_composition ((splitWS s).filterMap tokenDenote) =
      some (joinWith " "
        (((splitWS s).filterMap tokenDenote).map formatted_note)) := by
    unfold save_composition
    rw [isEmpty_false_of_ne_nil hnotes_ne]
    show some _ = _
    rw [hsort]
  have hout_tokens : splitWS (joinWith " "
      (((splitWS s).filterMap tokenDenote).map formatted_note)) =
      ((splitWS s).filterMap tokenDenote).map formatted_note := by
    apply splitWS_joinWith
    intro tok hm
    obtain ⟨n, hn, rfl⟩ := List.mem_map.mp hm
    obtain ⟨-, hne', hws⟩ := tokenDenote_formatted (hgoodmem n hn)
    exact ⟨hne', hws⟩
  refine ⟨(splitWS s).filterMap tokenDenote, [],
    joinWith " " (((splitWS s).filterMap tokenDenote).map formatted_note),
    hparse, rfl, hsave, ?_, ?_⟩
  · rw [hout_tokens, List.length_map, hfmlen]
  · intro i tin tout htin htout
    obtain ⟨n, hdin, hnotei⟩ := hfmpt i tin htin
    rw [hout_tokens] at htout
    rw [List.get?_map, hnotei] at htout
    have htout' : tout = formatted_note n := (Option.some.inj htout).symm
    obtain ⟨hdf, -, -⟩ := tokenDenote_formatted (hgoodmem n (List.get?_mem hnotei))
    refine ⟨?_, ?_⟩
    · rw [htout', hdf, hdin]
    · rw [htout', hdf]
      rfl

/-- Witness for C5 on a concrete sorted track whose numeric fields are not in
canonical float formatting (`0.50`, `1`): the serialized first token
`Do4-0.5-1.0-100-0` is equivalent to the input first token `Do4-0.50-1-100-0`
(same denoted note, different formatting). -/
theorem parse_serialize_roundtrip_witness :
    tokenEquiv "Do4-0.5-1.0-100-0" "Do4-0.50-1-100-0" := by
  obtain ⟨notes, warns, out, hp, hw, hs, hl, hpt⟩ :=
    parse_serialize_roundtrip "Do4-0.50-1-100-0 Re4-2.0-1.0-100-1"
      (by with_unfolding_all decide)
      (by with_unfolding_all decide)
      (by with_unfolding_all decide)
  have hcalc : parse_music_data "Do4-0.50-1-100-0 Re4-2.0-1.0-100-1" =
      .ok ([⟨"Do", 4, 1/2, 1, 100, 0⟩, ⟨"Re", 4, 2, 1, 100, 1⟩], []) := by
    with_unfolding_all rfl
  rw [hcalc] at hp
  obtain ⟨hnotes, -⟩ := Prod.mk.injEq .. ▸ (Except.ok.inj hp)
  have hnotes' : notes = [⟨"Do", 4, 1/2, 1, 100, 0⟩, ⟨"Re", 4, 2, 1, 100, 1⟩] :=
    hnotes.symm
  rw [hnotes'] at hs
  have hcalc2 : save_composition
      [(⟨"Do", 4, 1/2, 1, 100, 0⟩ : RawNote), ⟨"Re", 4, 2, 1, 100, 1⟩] =
      some "Do4-0.5-1.0-100-0 Re4-2.0-1.0-100-1" := by
    with_unfolding_all rfl
  rw [hcalc2] at hs
  have hout : out = "Do4-0.5-1.0-100-0 Re4-2.0-1.0-100-1" := (Option.some.inj hs).symm
  exact hpt 0 "Do4-0.50-1-100-0" "Do4-0.5-1.0-100-0"
    (by with_unfolding_all rfl)
    (by rw [hout]; with_unfolding_all rfl)

/-- Counterexample to C5 as stated: a well-formed track string whose two tokens
are not in start-time order parses fine, but re-serializing sorts the notes, so
the first output token denotes the `Do` note while the first input token
denotes the `Re` note — not token-for-token equivalent. -/
theorem parse_serialize_roundtrip_cex :
    wellFormedToken5 "Re4-1.0-1.0-100-0" = true ∧
    wellFormedToken5 "Do4-0.5-1.0-100-0" = true ∧
    splitWS "Re4-1.0-1.0-100-0 Do4-0.5-1.0-100-0" =
      ["Re4-1.0-1.0-100-0", "Do4-0.5-1.0-100-0"] ∧
    parse_music_data "Re4-1.0-1.0-100-0 Do4-0.5-1.0-100-0" =
      .ok ([⟨"Re", 4, 1, 1, 100, 0⟩, ⟨"Do", 4, 1/2, 1, 100, 0⟩], []) ∧
    save_composition [(⟨"Re", 4, 1, 1, 100, 0⟩ : RawNote), ⟨"Do", 4, 1/2, 1, 100, 0⟩] =
      some "Do4-0.5-1.0-100-0 Re4-1.0-1.0-100-0" ∧
    ¬ tokenEquiv "Do4-0.5-1.0-100-0" "Re4-1.0-1.0-100-0" := by
  refine ⟨?_, ?_, ?_, ?_, ?_, ?_⟩
  · with_unfolding_all rfl
  · with_unfolding_all rfl
  · with_unfolding_all rfl
  · with_unfolding_all rfl
  · with_unfolding_all rfl
  · with_unfolding_all decide

end MusicCo
